import Mathlib

/-!
Verification of the prysm playlist ingestion and persistence pipeline.

This file gives a shallow embedding, in Lean 4, of the core subsystem of the
repository: the M3U playlist text parser (`src/client/lib/m3u-parser.ts`), the
HLS quality variant resolver (`src/client/lib/hls-quality-parser.ts`) and the
chunked persistence engine (`src/client/lib/storage.ts`), together with proofs
and refutations of the behavioural claims made about them.

Modelling conventions:
* JavaScript strings are Lean `String`s; the scanning primitives the source
  relies on (`split`, `trim`, `includes`, `startsWith`, first-occurrence
  `replace`, and the few regular expressions it uses) are re-implemented here
  as structurally recursive functions over `List Char` so that they both
  mirror the JS semantics and reduce inside the kernel.
* `AsyncStorage` is modelled as an association list from string keys to typed
  stored values; `JSON.stringify`/`JSON.parse` round-trips are taken as the
  identity, so a record is stored as itself rather than as its JSON text.
  Write failures are injected through an environment `Env` that maps a key to
  an optional thrown error, mirroring fault injection on `setItem`.
* `Math.random`-based id generation and `Date.now()` are passed in as explicit
  parameters (`ids : Nat → String`, `now : Nat`).
* `fetch` is modelled as an oracle `Nat → FetchOutcome` giving the outcome of
  the n-th HTTP attempt; the code under study performs a single attempt.
-/

namespace Prysm

/-! ## JavaScript string primitives -/

/-- JS `String.prototype.trim` whitespace test, restricted to the ASCII
whitespace characters that occur in playlist text. -/
def isJsWs (c : Char) : Bool :=
  c = ' ' || c = '\t' || c = '\n' || c = '\r'

/-- `split` on a single separator character, JS semantics:
`"".split(c) = [""]`, separators at the ends produce empty fields. -/
def splitOnCharL (sep : Char) : List Char → List (List Char)
  | [] => [[]]
  | x :: xs =>
    match splitOnCharL sep xs with
    | [] => [[x]]
    | r :: rs => if x = sep then [] :: r :: rs else (x :: r) :: rs

/-- JS `trim` over a character list. -/
def trimL (l : List Char) : List Char :=
  ((l.dropWhile isJsWs).reverse.dropWhile isJsWs).reverse

/-- JS `startsWith` over character lists. -/
def startsWithL : List Char → List Char → Bool
  | [], _ => true
  | _ :: _, [] => false
  | p :: ps, x :: xs => p = x && startsWithL ps xs

/-- JS `includes` (substring containment) over character lists. -/
def containsL (pat : List Char) : List Char → Bool
  | [] => pat.isEmpty
  | x :: xs => startsWithL pat (x :: xs) || containsL pat xs

/-- Case-insensitive `startsWith` (ASCII case folding, as used by the
case-insensitive regexes of the parser). -/
def startsWithCIL : List Char → List Char → Bool
  | [], _ => true
  | _ :: _, [] => false
  | p :: ps, x :: xs => p.toLower = x.toLower && startsWithCIL ps xs

/-- Find the first case-insensitive occurrence of `pat` and return the suffix
immediately after it, scanning left to right like a JS regex match. -/
def findCISuffix (pat : List Char) : List Char → Option (List Char)
  | [] => if pat.isEmpty then some [] else none
  | x :: xs =>
    if startsWithCIL pat (x :: xs) then some ((x :: xs).drop pat.length)
    else findCISuffix pat xs

/-- First-occurrence `String.prototype.replace` with a plain-string pattern
(JS `replace` with a string argument replaces only the first occurrence). -/
def replaceFirstL (pat repl : List Char) : List Char → List Char
  | [] => if pat.isEmpty then repl else []
  | x :: xs =>
    if startsWithL pat (x :: xs) then repl ++ (x :: xs).drop pat.length
    else x :: replaceFirstL pat repl xs

/-- The suffix after the first comma that is followed by at least one
character: the capture of the JS regex `/,(.+)$/` (leftmost match, greedy
`.+` taking everything to the end of the line). -/
def firstCommaRest : List Char → Option (List Char)
  | [] => none
  | c :: rest =>
    if c = ',' && !rest.isEmpty then some rest else firstCommaRest rest

/-- Everything after the first occurrence of `c`, i.e. the JS idiom
`line.split(c).slice(1).join(c)`; `none` when `c` does not occur. -/
def afterFirstCharL (c : Char) : List Char → Option (List Char)
  | [] => none
  | x :: xs => if x = c then some xs else afterFirstCharL c xs

/-- Text between the first and the second occurrence of `c`:
the JS idiom `line.split(c)[1]`; `none` when `c` does not occur. -/
def betweenFirstCharL (c : Char) (l : List Char) : Option (List Char) :=
  (afterFirstCharL c l).map (·.takeWhile (· ≠ c))

/-- String wrappers. -/
def jsSplit (s : String) (sep : Char) : List String :=
  (splitOnCharL sep s.data).map String.mk

def jsTrim (s : String) : String := String.mk (trimL s.data)

def jsIncludes (s pat : String) : Bool := containsL pat.data s.data

def jsStartsWith (s pre : String) : Bool := startsWithL pre.data s.data

def jsToLower (s : String) : String := String.mk (s.data.map Char.toLower)

def jsToUpper (s : String) : String := String.mk (s.data.map Char.toUpper)

/-! ## Decimal rendering of numbers (JS template literal `${i}` on a
non-negative integer), structurally recursive so it reduces in the kernel. -/

def decCharsAux : Nat → Nat → List Char
  | _, 0 => []
  | n, fuel + 1 =>
    if n = 0 then [] else decCharsAux (n / 10) fuel ++ [Nat.digitChar (n % 10)]

/-- Decimal digits of `n`, as produced by JS string interpolation. -/
def natToDec (n : Nat) : String :=
  if n = 0 then "0" else String.mk (decCharsAux n n)

/-! ## Lexicographic comparison of weight lists, and the model of
`String.prototype.localeCompare`.

`localeCompare` with no arguments uses the host's default locale, which on
every mainstream JS engine (V8, JSC, Hermes with Intl) is backed by the ICU
collation tables.  For the ASCII letter strings that occur as category names
this collation compares primarily by case-folded letters and only breaks ties
by case, with lowercase ordered before uppercase — it is *not* the
code-point (case-sensitive lexicographic) order.  The model below implements
exactly that restriction of the ICU root collation. -/

def listCompareNat : List Nat → List Nat → Ordering
  | [], [] => .eq
  | [], _ :: _ => .lt
  | _ :: _, [] => .gt
  | a :: as, b :: bs =>
    if a < b then .lt else if b < a then .gt else listCompareNat as bs

/-- Primary collation weight: case-folded code point. -/
def collPrimary (s : String) : List Nat :=
  s.data.map (fun c => c.toLower.toNat)

/-- Tertiary collation weight: lowercase before uppercase. -/
def collTertiary (s : String) : List Nat :=
  s.data.map (fun c => if c.isUpper then 1 else 0)

/-- Model of `a.localeCompare(b)` (default locale, ASCII strings):
negative / zero / positive as ICU root collation orders `a` before /
equal to / after `b`. -/
def localeCompare (a b : String) : Int :=
  match listCompareNat (collPrimary a) (collPrimary b) with
  | .lt => -1
  | .gt => 1
  | .eq =>
    match listCompareNat (collTertiary a) (collTertiary b) with
    | .lt => -1
    | .gt => 1
    | .eq => 0

/-! ## `Array.prototype.sort` with a comparator.

JS engines implement a stable sort (required since ES2019); an insertion sort
placing each element before the first strictly-greater element of the
already-sorted tail is stable and realizes the same ordering contract:
`a` precedes `b` whenever `cmp a b < 0`, and original order is kept for
`cmp`-ties. -/

def insertCmp (cmp : α → α → Int) (x : α) : List α → List α
  | [] => [x]
  | y :: ys => if cmp x y ≤ 0 then x :: y :: ys else y :: insertCmp cmp x ys

def sortByCmp (cmp : α → α → Int) : List α → List α
  | [] => []
  | x :: xs => insertCmp cmp x (sortByCmp cmp xs)

/-! ## JS numbers restricted to the integral values this code manipulates. -/

/-- A JS number as it appears in this pipeline: either `NaN` (from a failed
`parseInt`/`Number` conversion) or an integer. -/
inductive JSNum where
  | nan : JSNum
  | num : Int → JSNum
deriving DecidableEq

/-- JS truthiness of a number: `0` and `NaN` are falsy. -/
def JSNum.truthy : JSNum → Bool
  | .nan => false
  | .num n => n ≠ 0

/-- JS `>` on numbers: any comparison against `NaN` is false. -/
def JSNum.gt : JSNum → JSNum → Bool
  | .num a, .num b => b < a
  | _, _ => false

/-- `parseInt(s, 10)`: skip leading whitespace, optional sign, then the
maximal run of leading decimal digits; `NaN` if there is none. -/
def parseIntJS (s : String) : JSNum :=
  let t := s.data.dropWhile isJsWs
  let core : List Char → JSNum := fun l =>
    let digits := l.takeWhile Char.isDigit
    if digits.isEmpty then .nan
    else .num (Int.ofNat (digits.foldl (fun a c => a * 10 + (c.toNat - 48)) 0))
  match t with
  | '-' :: rest =>
    match core rest with
    | .nan => .nan
    | .num n => .num (-n)
  | '+' :: rest => core rest
  | l => core l

/-- `Number(s)` restricted to integral numerals: the whole (trimmed) string
must be a decimal numeral.  The empty string converts to `0`.  Fractional or
exponential forms do not occur in the manifests this model covers. -/
def jsNumber (s : String) : JSNum :=
  let t := s.data.dropWhile isJsWs
  let t := (t.reverse.dropWhile isJsWs).reverse
  let core : List Char → JSNum := fun l =>
    if l.isEmpty || !(l.all Char.isDigit) then .nan
    else .num (Int.ofNat (l.foldl (fun a c => a * 10 + (c.toNat - 48)) 0))
  match t with
  | [] => .num 0
  | '-' :: rest =>
    match core rest with
    | .nan => .nan
    | .num n => .num (-n)
  | '+' :: rest => core rest
  | l => core l

/-! ## Record model (`src/client/types/playlist.ts`) -/

/-- `DRMInfo`.  The `type` field holds one of the four scheme names. -/
structure DRMInfo where
  type : Option String := none
  licenseServer : Option String := none
  headers : Option (List (String × String)) := none
  certificateUrl : Option String := none
deriving DecidableEq

/-- `Channel`.  Optional TS fields become `Option`s; `headers` is the record
of extra HTTP request headers. -/
structure Channel where
  id : String
  name : String
  url : String
  logo : Option String := none
  group : String
  tvgId : Option String := none
  tvgName : Option String := none
  drm : Option DRMInfo := none
  headers : Option (List (String × String)) := none
  isLive : Option Bool := none
  quality : Option String := none
deriving DecidableEq

/-- `Playlist`. -/
structure Playlist where
  id : String
  name : String
  url : Option String := none
  channels : List Channel
  categories : List String
  lastUpdated : Nat
deriving DecidableEq

/-! ## Chunked persistence engine (`src/client/lib/storage.ts`) -/

/-- `PlaylistType`. -/
inductive PlaylistType where
  | m3u : PlaylistType
  | xtream : PlaylistType
deriving DecidableEq

structure XtreamCredentials where
  server : String
  username : String
  password : String
deriving DecidableEq

/-- `PlaylistInfo`, the per-playlist summary record kept in the
`prysm_playlists` list. -/
structure PlaylistInfo where
  id : String
  name : String
  type : PlaylistType
  url : Option String := none
  xtreamCredentials : Option XtreamCredentials := none
  channelCount : Nat
  lastUpdated : Nat
deriving DecidableEq

/-- `PlaylistMeta`, the per-playlist metadata record. -/
structure PlaylistMeta where
  id : String
  name : String
  type : PlaylistType
  url : Option String := none
  xtreamCredentials : Option XtreamCredentials := none
  categories : List String
  lastUpdated : Nat
  totalChannels : Nat
  chunkCount : Nat
deriving DecidableEq

/-- `MinimalChannel`, the minimized persisted channel projection. -/
structure MinimalChannel where
  i : String
  n : String
  u : String
  l : Option String := none
  g : String
deriving DecidableEq

/-- `minimizeChannel`: note that `if (channel.logo)` keeps the logo only when
it is truthy, so an empty-string logo is dropped. -/
def minimizeChannel (channel : Channel) : MinimalChannel :=
  { i := channel.id
    n := channel.name
    u := channel.url
    g := channel.group
    l := match channel.logo with
         | some s => if s = "" then none else some s
         | none => none }

/-- `expandChannel`: fields absent from the minimized projection come back as
absent (`undefined`). -/
def expandChannel (min : MinimalChannel) : Channel :=
  { id := min.i
    name := min.n
    url := min.u
    group := min.g
    logo := min.l }

/-- A JS error as the storage engine inspects it: an optional `message` and an
optional numeric `code`. -/
structure JSError where
  message : Option String := none
  code : Option Int := none
deriving DecidableEq

/-- The storage-full test applied to a caught error:
`error.message?.includes("disk is full") || error.code === 13`. -/
def isDiskFull (e : JSError) : Bool :=
  (match e.message with
   | some m => jsIncludes m "disk is full"
   | none => false) || e.code = some 13

/-- The distinguished error thrown when the save fails on an out-of-space
condition outside the chunk loop. -/
def deviceFullError : JSError :=
  { message := some "Device storage is full. Please free up some space or use a smaller playlist." }

/-- A value in the key/value store.  `AsyncStorage` holds JSON strings; the
JSON encodings of the record shapes this module writes round-trip, so values
are modelled by the records themselves (plus `str` for the raw active-id
string). -/
inductive StoredValue where
  | list : List PlaylistInfo → StoredValue
  | meta : PlaylistMeta → StoredValue
  | chunk : List MinimalChannel → StoredValue
  | str : String → StoredValue
deriving DecidableEq

/-- The store: an association list (first binding wins). -/
abbrev Store := List (String × StoredValue)

def storeGet (s : Store) (k : String) : Option StoredValue :=
  match s with
  | [] => none
  | (k', v) :: rest => if k' = k then some v else storeGet rest k

def storeSet (s : Store) (k : String) (v : StoredValue) : Store :=
  match s with
  | [] => [(k, v)]
  | (k', v') :: rest =>
    if k' = k then (k, v) :: rest else (k', v') :: storeSet rest k v

def storeRemove (s : Store) (k : String) : Store :=
  match s with
  | [] => []
  | (k', v') :: rest =>
    if k' = k then storeRemove rest k else (k', v') :: storeRemove rest k

def storeMultiRemove (s : Store) (ks : List String) : Store :=
  ks.foldl storeRemove s

/-- Fault-injection environment: which keys fail on `setItem`, and with what
error.  Reads and removes never fail. -/
structure Env where
  setFail : String → Option JSError

/-- `AsyncStorage.setItem`: either the write lands or the injected error is
thrown and the store is unchanged. -/
def setItem (env : Env) (s : Store) (k : String) (v : StoredValue) :
    Store × Option JSError :=
  match env.setFail k with
  | some e => (s, some e)
  | none => (storeSet s k v, none)

/-- The storage keys (`STORAGE_KEYS` plus the per-id suffixing). -/
def playlistsKey : String := "prysm_playlists"

def activePlaylistKey : String := "prysm_active_playlist"

def metaKey (id : String) : String := "prysm_playlist_meta_" ++ id

def chunkKey (id : String) (i : Nat) : String :=
  "prysm_playlist_chunks_" ++ id ++ "_" ++ natToDec i

def CHUNK_SIZE : Nat := 300

/-- `getPlaylistList`: parse the summary list, `[]` when absent or unreadable. -/
def getPlaylistList (s : Store) : List PlaylistInfo :=
  match storeGet s playlistsKey with
  | some (.list l) => l
  | _ => []

/-- `savePlaylistList`: write the summary list; errors are caught and logged,
leaving the store as it was. -/
def savePlaylistList (env : Env) (s : Store) (l : List PlaylistInfo) : Store :=
  match setItem env s playlistsKey (.list l) with
  | (s', none) => s'
  | (_, some _) => s

/-- `getActivePlaylistId`. -/
def getActivePlaylistId (s : Store) : Option String :=
  match storeGet s activePlaylistKey with
  | some (.str a) => some a
  | _ => none

/-- `setActivePlaylistId`: errors are caught and logged. -/
def setActivePlaylistId (env : Env) (s : Store) (id : String) : Store :=
  match setItem env s activePlaylistKey (.str id) with
  | (s', none) => s'
  | (_, some _) => s

/-- The minimized slice stored as chunk `i` of a channel list
(`channels.slice(start, end).map(minimizeChannel)`). -/
def chunkSlice (channels : List Channel) (i : Nat) : List MinimalChannel :=
  let start := i * CHUNK_SIZE
  let stop := min (start + CHUNK_SIZE) channels.length
  (((channels.drop start).take (stop - start)).map minimizeChannel)

/-- The chunk-writing loop of `savePlaylist`, over the remaining chunk
indices.  On an out-of-space error it truncates the metadata to the chunks
already written, rewrites it and stops successfully; any other error is
rethrown (the store keeps the writes made so far). -/
def writeChunks (env : Env) (pid : String) (channels : List Channel)
    (meta : PlaylistMeta) : List Nat → Store → Store × PlaylistMeta × Option JSError
  | [], s => (s, meta, none)
  | i :: rest, s =>
    match setItem env s (chunkKey pid i) (.chunk (chunkSlice channels i)) with
    | (s', none) => writeChunks env pid channels meta rest s'
    | (_, some e) =>
      if isDiskFull e then
        let meta' := { meta with chunkCount := i, totalChannels := i * CHUNK_SIZE }
        match setItem env s (metaKey pid) (.meta meta') with
        | (s', none) => (s', meta', none)
        | (_, some e') => (s, meta', some e')
      else (s, meta, some e)

/-- The body of `savePlaylist` before the outer catch. -/
def savePlaylistBody (env : Env) (s : Store) (playlist : Playlist)
    (type : PlaylistType) (creds : Option XtreamCredentials) :
    Store × Option JSError :=
  let channels := playlist.channels
  let chunkCount := (channels.length + CHUNK_SIZE - 1) / CHUNK_SIZE
  let meta : PlaylistMeta :=
    { id := playlist.id
      name := playlist.name
      type := type
      url := playlist.url
      xtreamCredentials := creds
      categories := playlist.categories.take 50
      lastUpdated := playlist.lastUpdated
      totalChannels := channels.length
      chunkCount := chunkCount }
  match setItem env s (metaKey playlist.id) (.meta meta) with
  | (_, some e) => (s, some e)
  | (s1, none) =>
    match writeChunks env playlist.id channels meta (List.range chunkCount) s1 with
    | (s2, _, some e) => (s2, some e)
    | (s2, finalMeta, none) =>
      let playlists := getPlaylistList s2
      let info : PlaylistInfo :=
        { id := playlist.id
          name := playlist.name
          type := type
          url := playlist.url
          xtreamCredentials := creds
          channelCount := finalMeta.totalChannels
          lastUpdated := finalMeta.lastUpdated }
      let playlists' :=
        match playlists.findIdx? (fun p => p.id = playlist.id) with
        | some idx => playlists.set idx info
        | none => playlists ++ [info]
      let s3 := savePlaylistList env s2 playlists'
      let s4 := setActivePlaylistId env s3 playlist.id
      (s4, none)

/-- `savePlaylist`: runs the body and re-reports an escaping out-of-space
error as the distinguished "device storage full" failure. -/
def savePlaylist (env : Env) (s : Store) (playlist : Playlist)
    (type : PlaylistType := .m3u) (creds : Option XtreamCredentials := none) :
    Store × Option JSError :=
  match savePlaylistBody env s playlist type creds with
  | (s', none) => (s', none)
  | (s', some e) =>
    if isDiskFull e then (s', some deviceFullError) else (s', some e)

/-- The chunk-reading loop of `getPlaylist`: a missing (or unreadable) chunk
is skipped. -/
def readChunks (s : Store) (id : String) (chunkCount : Nat) : List Channel :=
  (List.range chunkCount).foldl
    (fun acc i =>
      match storeGet s (chunkKey id i) with
      | some (.chunk c) => acc ++ c.map expandChannel
      | _ => acc)
    []

/-- `getPlaylist`: resolve the id (an explicit falsy id falls back to the
active one), read the metadata, then the chunks. -/
def getPlaylist (s : Store) (playlistId : Option String := none) :
    Option Playlist :=
  let id0 : Option String :=
    match playlistId with
    | some pid => if pid = "" then getActivePlaylistId s else some pid
    | none => getActivePlaylistId s
  match id0 with
  | none => none
  | some id =>
    if id = "" then none
    else
      match storeGet s (metaKey id) with
      | some (.meta meta) =>
        some { id := meta.id
               name := meta.name
               url := meta.url
               categories := meta.categories
               lastUpdated := meta.lastUpdated
               channels := readChunks s id meta.chunkCount }
      | _ => none

/-- `deletePlaylist`: remove the metadata record and the chunk records it
references in one batch, drop the id from the summary list, and fix up the
active-playlist pointer. -/
def deletePlaylist (env : Env) (s : Store) (playlistId : String) : Store :=
  let s1 :=
    match storeGet s (metaKey playlistId) with
    | some (.meta meta) =>
      storeMultiRemove s
        (metaKey playlistId :: (List.range meta.chunkCount).map (chunkKey playlistId))
    | some _ => storeRemove s (metaKey playlistId)
    | none => s
  let filtered := (getPlaylistList s1).filter (fun p => p.id ≠ playlistId)
  let s2 := savePlaylistList env s1 filtered
  match getActivePlaylistId s2 with
  | some a =>
    if a = playlistId then
      match filtered with
      | p :: _ => setActivePlaylistId env s2 p.id
      | [] => storeRemove s2 activePlaylistKey
    else s2
  | none => s2

/-! ## M3U playlist text parser (`src/client/lib/m3u-parser.ts`) -/

/-- The accumulator for one pending `#EXTINF` entry (`Partial<Channel>`). -/
structure PartialChannel where
  tvgId : Option String := none
  tvgName : Option String := none
  logo : Option String := none
  group : Option String := none
  quality : Option String := none
  name : Option String := none
deriving DecidableEq

/-- Capture of the case-insensitive regex `key="([^"]*)"`: the text between
the quotes of the first occurrence of `key="`, provided a closing quote
exists. -/
def matchAttrCapture (key : List Char) (line : List Char) : Option String :=
  match findCISuffix (key ++ ['=', '"']) line with
  | none => none
  | some suffixPart =>
    if suffixPart.contains '"' then
      some (String.mk (suffixPart.takeWhile (· ≠ '"')))
    else none

/-- JS `\w` word characters (`[A-Za-z0-9_]`). -/
def isWordChar (c : Char) : Bool := c.isAlphanum || c = '_'

/-- The quality-token vocabulary, in the alternation order of the regex
`/\b(4K|UHD|FHD|HD|SD|720p|1080p|480p|360p)\b/i`. -/
def qualityAlts : List (List Char) :=
  ["4K", "UHD", "FHD", "HD", "SD", "720p", "1080p", "480p", "360p"].map String.data

/-- Word boundary after a candidate match. -/
def boundaryAfter (a l : List Char) : Bool :=
  match l.drop a.length with
  | [] => true
  | c :: _ => !isWordChar c

/-- Try the alternatives in order at the current position, returning the
matched source text. -/
def tryQualityAlts : List (List Char) → List Char → Option (List Char)
  | [], _ => none
  | a :: as, l =>
    if startsWithCIL a l && boundaryAfter a l then some (l.take a.length)
    else tryQualityAlts as l

/-- Left-to-right scan for the first position with a left word boundary where
some alternative matches with a right word boundary. -/
def findQualityAux : Option Char → List Char → Option (List Char)
  | _, [] => none
  | prev, x :: xs =>
    let leftOk := match prev with
      | none => true
      | some p => !isWordChar p
    match (if leftOk then tryQualityAlts qualityAlts (x :: xs) else none) with
    | some m => some m
    | none => findQualityAux (some x) xs

/-- The quality capture, uppercased (`match[1].toUpperCase()`). -/
def findQuality (l : List Char) : Option String :=
  (findQualityAux none l).map (fun m => String.mk (m.map Char.toUpper))

/-- `parseExtInf`. -/
def parseExtInf (line : List Char) : PartialChannel :=
  { tvgId := matchAttrCapture "tvg-id".data line
    tvgName := matchAttrCapture "tvg-name".data line
    logo := matchAttrCapture "tvg-logo".data line
    group := matchAttrCapture "group-title".data line
    quality := findQuality line
    name := (firstCommaRest line).map (fun r => String.mk (trimL r)) }

/-- Assoc-list update mirroring JS object property assignment. -/
def setAssocStr (l : List (String × String)) (k v : String) :
    List (String × String) :=
  match l with
  | [] => [(k, v)]
  | (k', v') :: rest =>
    if k' = k then (k, v) :: rest else (k', v') :: setAssocStr rest k v

/-- State of the DRM/header lookback scan. -/
structure DRMScan where
  drm : DRMInfo := {}
  headers : List (String × String) := []
  foundDRM : Bool := false
  foundHeaders : Bool := false

/-- One line of the `parseDRM` scan. -/
def parseDRMLine (st : DRMScan) (line : List Char) : DRMScan :=
  let st :=
    if containsL "#KODIPROP:inputstream.adaptive.license_type=".data line then
      let t := trimL (((betweenFirstCharL '=' line).getD []).map Char.toLower)
      let ty : Option String :=
        if containsL "widevine".data t then some "widevine"
        else if containsL "playready".data t then some "playready"
        else if containsL "fairplay".data t then some "fairplay"
        else if containsL "clearkey".data t then some "clearkey"
        else st.drm.type
      { st with drm := { st.drm with type := ty }, foundDRM := true }
    else st
  let st :=
    if containsL "#KODIPROP:inputstream.adaptive.license_key=".data line then
      { st with
        drm := { st.drm with
                 licenseServer :=
                   some (String.mk (trimL ((afterFirstCharL '=' line).getD []))) }
        foundDRM := true }
    else st
  let st :=
    if containsL "#EXTVLCOPT:http-user-agent=".data line then
      { st with
        headers := setAssocStr st.headers "User-Agent"
          (String.mk (trimL ((afterFirstCharL '=' line).getD [])))
        foundHeaders := true }
    else st
  if containsL "#EXTVLCOPT:http-referrer=".data line then
    { st with
      headers := setAssocStr st.headers "Referer"
        (String.mk (trimL ((afterFirstCharL '=' line).getD [])))
      foundHeaders := true }
  else st

/-- `parseDRM`: scan the window of up to 5 lines preceding the URL line. -/
def parseDRM (lines : List (List Char)) (currentIndex : Nat) :
    Option DRMInfo × Option (List (String × String)) :=
  let window := (lines.take currentIndex).drop (currentIndex - 5)
  let st := window.foldl parseDRMLine {}
  (if st.foundDRM then some st.drm else none,
   if st.foundHeaders then some st.headers else none)

/-- JS truthiness of the pending entry's name. -/
def nameTruthy (pc : PartialChannel) : Bool :=
  match pc.name with
  | some s => s ≠ ""
  | none => false

/-- Parser loop state. -/
structure ParseState where
  current : PartialChannel := {}
  channels : List Channel := []
  cats : List String := []
  nextId : Nat := 0

/-- `Set.add` over the insertion-ordered category collection. -/
def addUnique (cats : List String) (g : String) : List String :=
  if cats.contains g then cats else cats ++ [g]

/-- One iteration of the `parseM3U` line loop. -/
def parseStep (ids : Nat → String) (lines : List (List Char))
    (st : ParseState) (il : Nat × List Char) : ParseState :=
  let i := il.1
  let line := il.2
  if startsWithL "#EXTINF:".data line then
    { st with current := parseExtInf line }
  else if !line.isEmpty && !startsWithL "#".data line && nameTruthy st.current then
    let scan := parseDRM lines i
    let channel : Channel :=
      { id := ids st.nextId
        name := match st.current.name with
                | some s => if s = "" then "Unknown Channel" else s
                | none => "Unknown Channel"
        url := String.mk line
        logo := st.current.logo
        group := match st.current.group with
                 | some g => if g = "" then "Uncategorized" else g
                 | none => "Uncategorized"
        tvgId := st.current.tvgId
        tvgName := st.current.tvgName
        quality := st.current.quality
        drm := scan.1
        headers := scan.2
        isLive := some true }
    { current := {}
      channels := st.channels ++ [channel]
      cats := addUnique st.cats channel.group
      nextId := st.nextId + 1 }
  else st

/-- The category comparator passed to `Array.prototype.sort`. -/
def catCmp (a b : String) : Int :=
  if a = "Uncategorized" then 1
  else if b = "Uncategorized" then -1
  else localeCompare a b

/-- The trimmed line array `content.split("\n").map(l => l.trim())`. -/
def m3uLines (content : String) : List (List Char) :=
  (splitOnCharL '\n' content.data).map trimL

/-- `parseM3U`.  `ids` supplies the values of successive `generateId()` calls
and `now` the value of `Date.now()`. -/
def parseM3U (ids : Nat → String) (now : Nat) (content : String)
    (playlistName : String := "My Playlist") : Playlist :=
  let lines := m3uLines content
  let st := lines.enum.foldl (parseStep ids lines) {}
  { id := ids st.nextId
    name := playlistName
    url := none
    channels := st.channels
    categories := sortByCmp catCmp st.cats
    lastUpdated := now }

/-! ## Remote playlist fetching -/

/-- The outcome of one HTTP attempt. -/
inductive FetchOutcome where
  | netError : FetchOutcome
  | response : Bool → String → FetchOutcome
deriving DecidableEq

/-- `fetchPlaylistContent`: accept the body only when the response is ok and
the body carries a playlist marker; any failure yields `null`. -/
def fetchPlaylistContent (o : FetchOutcome) : Option String :=
  match o with
  | .netError => none
  | .response ok body =>
    if ok && (jsIncludes body "#EXTM3U" || jsIncludes body "#EXTINF") then
      some body
    else none

def fetchErrorMessage : String :=
  "Could not fetch playlist. The server may be blocking requests or require specific app authentication."

/-- The default-name derivation of `fetchAndParseM3U`: last path segment,
query stripped, then `.replace(".m3u","")` followed by `.replace(".m3u8","")`
(each replacing only the first occurrence). -/
def deriveFileName (url : String) : String :=
  let urlParts := jsSplit url '/'
  let lastPart := urlParts.getLastD ""
  let beforeQuery := ((jsSplit lastPart '?').headD "")
  String.mk (replaceFirstL ".m3u8".data []
    (replaceFirstL ".m3u".data [] beforeQuery.data))

/-- `fetchAndParseM3U`: one fetch (the oracle's attempt `0`), a thrown
user-facing error when no usable content came back, otherwise parse and stamp
the origin URL. -/
def fetchAndParseM3U (ids : Nat → String) (now : Nat)
    (oracle : Nat → FetchOutcome) (url : String) : Except String Playlist :=
  match fetchPlaylistContent (oracle 0) with
  | none => .error fetchErrorMessage
  | some content =>
    let fileName := deriveFileName url
    let playlistName := if fileName = "" then "Remote Playlist" else fileName
    let playlist := parseM3U ids now content playlistName
    .ok { playlist with url := some url }

/-! ## HLS quality variant resolver (`src/client/lib/hls-quality-parser.ts`) -/

/-- `VideoQuality` (from `components/AdvancedVideoPlayer`). -/
structure VideoQuality where
  label : String
  resolution : String
  bitrate : Option JSNum := none
  url : Option String := none
deriving DecidableEq

/-- A parsed `#EXT-X-STREAM-INF` variant. -/
structure HLSVariant where
  bandwidth : JSNum
  resolution : Option (JSNum × JSNum) := none
  url : String
  name : Option String := none
deriving DecidableEq

def isAttrKeyChar (c : Char) : Bool := c.isUpper || c.isDigit || c = '-'

/-- Strip a surrounding pair of double quotes (JS
`value.startsWith('"') && value.endsWith('"')` then `slice(1, -1)`). -/
def unquoteValue (v : List Char) : List Char :=
  match v with
  | '"' :: rest =>
    if v.getLast? = some '"' then ('"' :: rest).drop 1 |>.dropLast else v
  | _ => v

/-- The attribute-string scanner, the global-regex loop over
`([A-Z0-9-]+)=("[^"]*"|[^,]*)`; fuel-driven so it reduces in the kernel
(`fuel` at least the input length makes it total on the real input). -/
def parseAttrsAux : Nat → List Char → List (String × String) →
    List (String × String)
  | 0, _, acc => acc
  | _ + 1, [], acc => acc
  | fuel + 1, x :: xs, acc =>
    if isAttrKeyChar x then
      let keyRun := (x :: xs).takeWhile isAttrKeyChar
      match (x :: xs).drop keyRun.length with
      | '=' :: rest' =>
        let value :=
          match rest' with
          | '"' :: vr =>
            if vr.contains '"' then '"' :: vr.takeWhile (· ≠ '"') ++ ['"']
            else rest'.takeWhile (· ≠ ',')
          | _ => rest'.takeWhile (· ≠ ',')
        parseAttrsAux fuel (rest'.drop value.length)
          (setAssocStr acc (String.mk keyRun) (String.mk (unquoteValue value)))
      | _ => parseAttrsAux fuel ((x :: xs).drop keyRun.length) acc
    else parseAttrsAux fuel xs acc

/-- `parseAttributes`. -/
def parseAttributes (attributeString : String) : List (String × String) :=
  parseAttrsAux (attributeString.data.length + 1) attributeString.data []

def attrsGet (attrs : List (String × String)) (k : String) : Option String :=
  match attrs with
  | [] => none
  | (k', v) :: rest => if k' = k then some v else attrsGet rest k

/-- Minimal model of `new URL` for the http(s) URLs this pipeline sees:
protocol (with trailing colon), host, and pathname (query and fragment
stripped, empty path normalized to `/`). -/
def parseSimpleUrl (u : String) : Option (String × String × String) :=
  let core : String → List Char → Option (String × String × String) :=
    fun scheme rest =>
      let host := rest.takeWhile (fun c => c ≠ '/' && c ≠ '?' && c ≠ '#')
      let afterHost := rest.drop host.length
      let pathname :=
        match afterHost with
        | '/' :: _ => afterHost.takeWhile (fun c => c ≠ '?' && c ≠ '#')
        | _ => ['/']
      some (scheme, String.mk host, String.mk pathname)
  if jsStartsWith u "http://" then core "http:" (u.data.drop 7)
  else if jsStartsWith u "https://" then core "https:" (u.data.drop 8)
  else none

/-- `resolveUrl`. -/
def resolveUrl (url : String) (baseUrl : String) : String :=
  if jsStartsWith url "http://" || jsStartsWith url "https://" then url
  else
    match parseSimpleUrl baseUrl with
    | some (protocol, host, pathname) =>
      if jsStartsWith url "/" then protocol ++ "//" ++ host ++ url
      else
        let basePath := String.mk ((pathname.data.reverse.dropWhile (· ≠ '/')).reverse)
        protocol ++ "//" ++ host ++ basePath ++ url
    | none => url

/-- Render an integral JS number (`${height}` in a template literal). -/
def intToDec (n : Int) : String :=
  if n < 0 then "-" ++ natToDec n.natAbs else natToDec n.natAbs

/-- `Math.round(b / 1000)` on an integral bandwidth: floor(x + 1/2). -/
def roundKbps (b : Int) : Int := Int.fdiv (2 * b + 1000) 2000

/-- Collect the variants of a manifest: each `#EXT-X-STREAM-INF` line paired
with the following line when that is a truthy non-comment URL line. -/
def collectVariants (lines : List (List Char)) (baseUrl : String) :
    List HLSVariant :=
  lines.enum.foldl
    (fun acc il =>
      let i := il.1
      let line := il.2
      if startsWithL "#EXT-X-STREAM-INF:".data line then
        match lines.get? (i + 1) with
        | some urlLine =>
          if !urlLine.isEmpty && !startsWithL "#".data urlLine then
            let attrs := parseAttributes (String.mk (line.drop 18))
            let bandwidthStr :=
              match attrsGet attrs "BANDWIDTH" with
              | some v => if v = "" then "0" else v
              | none => "0"
            let variant : HLSVariant :=
              { bandwidth := parseIntJS bandwidthStr
                url := resolveUrl (String.mk urlLine) baseUrl
                resolution :=
                  match attrsGet attrs "RESOLUTION" with
                  | some r =>
                    let parts := jsSplit r 'x'
                    some (jsNumber (parts.headD ""),
                          match parts with
                          | _ :: p :: _ => jsNumber p
                          | _ => .nan)
                  | none => none
                name :=
                  match attrsGet attrs "NAME" with
                  | some v =>
                    if v = "" then none
                    else some (String.mk (v.data.filter (· ≠ '"')))
                  | none => none }
            acc ++ [variant]
          else acc
        | none => acc
      else acc)
    []

/-- The comparator `(a, b) => b.bandwidth - a.bandwidth`; a `NaN` difference
is treated as 0 by the engines' sort drivers. -/
def bandwidthCmp (a b : HLSVariant) : Int :=
  match b.bandwidth, a.bandwidth with
  | .num x, .num y => x - y
  | _, _ => 0

/-- Map a (sorted) variant to its labelled quality. -/
def variantToQuality (v : HLSVariant) : VideoQuality :=
  let lr : String × String :=
    match v.resolution with
    | some (_, h) =>
      match h with
      | .num hn =>
        if hn ≥ 2160 then ("4K", "2160p")
        else if hn ≥ 1440 then ("1440p", "1440p")
        else if hn ≥ 1080 then ("1080p", "1080p")
        else if hn ≥ 720 then ("720p", "720p")
        else if hn ≥ 480 then ("480p", "480p")
        else if hn ≥ 360 then ("360p", "360p")
        else (intToDec hn ++ "p", intToDec hn ++ "p")
      | .nan => ("NaNp", "NaNp")
    | none =>
      match v.bandwidth with
      | .num b =>
        let kbps := roundKbps b
        if kbps ≥ 8000 then ("High", "High Quality")
        else if kbps ≥ 4000 then ("Medium-High", "Medium-High")
        else if kbps ≥ 2000 then ("Medium", "Medium Quality")
        else if kbps ≥ 1000 then ("Low", "Low Quality")
        else ("Very Low", "Very Low Quality")
      | .nan => ("Very Low", "Very Low Quality")
  { label := match v.name with
             | some nm => if nm = "" then lr.1 else nm
             | none => lr.1
    resolution := lr.2
    bitrate := some v.bandwidth
    url := some v.url }

/-- JS truthiness of the optional `bitrate` field. -/
def bitrateTruthy : Option JSNum → Bool
  | some b => b.truthy
  | none => false

/-- JS `quality.bitrate > exists.bitrate` under the truthiness guards of the
source (`quality.bitrate && exists.bitrate && quality.bitrate > exists.bitrate`). -/
def bitrateReplCond (q ex : VideoQuality) : Bool :=
  bitrateTruthy q.bitrate && bitrateTruthy ex.bitrate &&
    (match q.bitrate, ex.bitrate with
     | some a, some b => a.gt b
     | _, _ => false)

/-- One step of the `reduce`-based deduplication. -/
def dedupStep (acc : List VideoQuality) (quality : VideoQuality) :
    List VideoQuality :=
  match acc.findIdx? (fun q => q.resolution = quality.resolution) with
  | none => acc ++ [quality]
  | some idx =>
    match acc.get? idx with
    | some ex => if bitrateReplCond quality ex then acc.set idx quality else acc
    | none => acc

/-- The `uniqueQualities` reduction. -/
def uniqueQualities (qualities : List VideoQuality) : List VideoQuality :=
  qualities.foldl dedupStep []

/-- `parseHLSManifest`. -/
def parseHLSManifest (content : String) (baseUrl : String) : List VideoQuality :=
  let lines := (splitOnCharL '\n' content.data).map trimL
  let variants := collectVariants lines baseUrl
  if variants.isEmpty then []
  else
    let sorted := sortByCmp bandwidthCmp variants
    uniqueQualities (sorted.map variantToQuality)

/-! ## Helper definitions used by the verification -/

/-- `Math.ceil(channels.length / CHUNK_SIZE)` on naturals. -/
def ceilChunks (n : Nat) : Nat := (n + CHUNK_SIZE - 1) / CHUNK_SIZE

/-- The store after writing the listed chunk indices (the pure effect of the
chunk loop when no write fails). -/
def chunkWrites (pid : String) (channels : List Channel) (idxs : List Nat)
    (s : Store) : Store :=
  idxs.foldl
    (fun t i => storeSet t (chunkKey pid i) (.chunk (chunkSlice channels i))) s

/-- The metadata record written at the start of `savePlaylist`. -/
def saveMeta (p : Playlist) (ty : PlaylistType)
    (creds : Option XtreamCredentials) : PlaylistMeta :=
  { id := p.id
    name := p.name
    type := ty
    url := p.url
    xtreamCredentials := creds
    categories := p.categories.take 50
    lastUpdated := p.lastUpdated
    totalChannels := p.channels.length
    chunkCount := ceilChunks p.channels.length }

/-- The summary entry written by `savePlaylist`, as a function of the final
(possibly truncated) metadata. -/
def saveInfo (p : Playlist) (ty : PlaylistType)
    (creds : Option XtreamCredentials) (finalMeta : PlaylistMeta) : PlaylistInfo :=
  { id := p.id
    name := p.name
    type := ty
    url := p.url
    xtreamCredentials := creds
    channelCount := finalMeta.totalChannels
    lastUpdated := finalMeta.lastUpdated }

/-- Insert-or-replace of the summary entry, by id. -/
def upsertInfo (l : List PlaylistInfo) (pid : String) (info : PlaylistInfo) :
    List PlaylistInfo :=
  match l.findIdx? (fun p => p.id = pid) with
  | some idx => l.set idx info
  | none => l ++ [info]

/-- An environment in which no write ever fails. -/
def noFailEnv : Env := ⟨fun _ => none⟩

/-- A channel whose `logo` is the empty string — a truthiness blind spot of
`minimizeChannel`. -/
def logoChannel : Channel :=
  { id := "c1", name := "One", url := "u1", group := "G", logo := some "" }

def logoPlaylist : Playlist :=
  { id := "p1", name := "P", channels := [logoChannel],
    categories := ["G"], lastUpdated := 0 }

/-- A well-behaved one-channel playlist. -/
def sampleChannel : Channel :=
  { id := "c1", name := "One", url := "u1", group := "G", logo := some "x" }

def samplePlaylist : Playlist :=
  { id := "p1", name := "P", channels := [sampleChannel],
    categories := ["G"], lastUpdated := 0 }

/-- `n` synthetic channels. -/
def manyChannels (n : Nat) : List Channel :=
  (List.range n).map
    (fun j => { id := natToDec j, name := "n", url := "u", group := "g" })

def bigPlaylist : Playlist :=
  { id := "p1", name := "big", channels := manyChannels 301,
    categories := [], lastUpdated := 0 }

/-- An error carrying the store's out-of-space message. -/
def diskFullErr : JSError := { message := some "disk is full" }

/-- An environment in which exactly the write of chunk 1 of playlist `p1`
runs out of space. -/
def failAtChunk1Env : Env :=
  ⟨fun k => if k = chunkKey "p1" 1 then some diskFullErr else none⟩

/-- A write error that is not the out-of-space condition. -/
def otherErr : JSError := { message := some "write failed" }

/-- An environment in which exactly the write of chunk 1 of playlist `p1`
fails, with a non-quota error. -/
def failOtherEnv : Env :=
  ⟨fun k => if k = chunkKey "p1" 1 then some otherErr else none⟩

/-- A one-channel playlist reusing the id of `bigPlaylist`. -/
def smallPlaylist : Playlist :=
  { id := "p1", name := "small", channels := manyChannels 1,
    categories := [], lastUpdated := 1 }

/-- The acceptance condition of `fetchPlaylistContent`: a successful response
whose body carries a playlist marker. -/
def goodOutcome (o : FetchOutcome) : Bool :=
  match o with
  | .netError => false
  | .response ok body =>
    ok && (jsIncludes body "#EXTM3U" || jsIncludes body "#EXTINF")

/-- A fetch oracle that always succeeds with a marker-bearing body. -/
def okOracle : Nat → FetchOutcome := fun _ => .response true "#EXTM3U\n"

/-- A fetch oracle whose single attempt gets a non-success response. -/
def badOracle : Nat → FetchOutcome := fun _ => .response false "#EXTM3U\n"

/-- A fixed id supply for concrete parser runs. -/
def ids0 : Nat → String := fun n => natToDec n

/-- The claim-side name derivation, modelled from the claim's words: the
display name is everything after the *last* comma of the entry-info line,
trimmed (`parseExtInf` actually captures everything after the *first*
comma). -/
def lastCommaName (l : List Char) : Option String :=
  if l.contains ',' then
    some (String.mk (trimL ((l.reverse.takeWhile (· ≠ ',')).reverse)))
  else none

/-- The parser-loop invariant used for C9: every emitted channel has a
non-empty name that is literally the name capture of some entry-info line of
the input (so the "Unknown Channel" fallback is never applied). -/
def NamesOK (lines : List (List Char)) (st : ParseState) : Prop :=
  (st.current = {} ∨ ∃ l ∈ lines, st.current = parseExtInf l) ∧
  ∀ c ∈ st.channels, c.name ≠ "" ∧
    ∃ l ∈ lines, (parseExtInf l).name = some c.name

/-- The parser-loop invariant used for C4: the category accumulator is
duplicate-free and holds exactly the groups of the emitted channels. -/
def CatsOK (st : ParseState) : Prop :=
  st.cats.Nodup ∧ ∀ g, g ∈ st.cats ↔ g ∈ st.channels.map Channel.group

/-- A quality entry carrying an actual (non-`NaN`) bitrate. -/
def numericBitrate (q : VideoQuality) : Prop :=
  ∃ n : Int, q.bitrate = some (.num n)

/-- `a`'s bitrate is a number at least `b`'s. -/
def bitGE (a b : VideoQuality) : Prop :=
  ∃ x y : Int, a.bitrate = some (.num x) ∧ b.bitrate = some (.num y) ∧ y ≤ x

/-- The accumulator invariant of the `uniqueQualities` reduction:
members come from the processed prefix, every processed resolution key is
represented, keys are pairwise distinct, each representative dominates the
bitrates of its key, and the accumulator preserves the descending order. -/
def DedupInv (processed acc : List VideoQuality) : Prop :=
  (∀ a ∈ acc, a ∈ processed) ∧
  (∀ p ∈ processed, ∃ a ∈ acc, a.resolution = p.resolution) ∧
  acc.Pairwise (fun a b => a.resolution ≠ b.resolution) ∧
  (∀ a ∈ acc, ∀ p ∈ processed, p.resolution = a.resolution → bitGE a p) ∧
  acc.Pairwise bitGE

/-- A concrete master manifest with two 720p variants at different
bandwidths. -/
def demoManifest : String :=
  "#EXTM3U\n#EXT-X-STREAM-INF:BANDWIDTH=2000000,RESOLUTION=1280x720\nhttp://e/lo.m3u8\n#EXT-X-STREAM-INF:BANDWIDTH=2500000,RESOLUTION=1280x720\nhttp://e/hi.m3u8"

/-- Two colliding 720p qualities at distinct bitrates, descending. -/
def qHi : VideoQuality :=
  { label := "720p", resolution := "720p",
    bitrate := some (.num 2500000), url := some "http://e/hi.m3u8" }

def qLo : VideoQuality :=
  { label := "720p", resolution := "720p",
    bitrate := some (.num 2000000), url := some "http://e/lo.m3u8" }

/-- The spec's own worked example input. -/
def cnnContent : String :=
  "#EXTM3U\n#EXTINF:-1 tvg-logo=\"x.png\" group-title=\"News\",CNN\nhttp://a/b.m3u8"

/-- A default channel for total head access in witnesses. -/
def dummyChannel : Channel := { id := "", name := "", url := "", group := "" }

/-! ## Supporting lemmas and claim theorems -/

theorem decCharsAux_fuel (n : Nat) :
    ∀ fuel fuel' : Nat, n ≤ fuel → n ≤ fuel' →
      decCharsAux n fuel = decCharsAux n fuel' := by
  induction n using Nat.strong_induction_on with
  | _ n ih =>
    intro fuel fuel' hf hf'
    match fuel, fuel' with
    | 0, 0 => rfl
    | 0, f' + 1 =>
      interval_cases n
      simp [decCharsAux]
    | f + 1, 0 =>
      interval_cases n
      simp [decCharsAux]
    | f + 1, f' + 1 =>
      by_cases hn : n = 0
      · simp [decCharsAux, hn]
      · simp only [decCharsAux, hn, if_false]
        have hlt : n / 10 < n := Nat.div_lt_self (Nat.pos_of_ne_zero hn) (by omega)
        rw [ih (n / 10) hlt f f' (by omega) (by omega)]

theorem decCharsAux_ne_nil {n fuel : Nat} (hn : n ≠ 0) (hf : n ≤ fuel) :
    decCharsAux n fuel ≠ [] := by
  match fuel with
  | 0 => omega
  | f + 1 =>
    simp [decCharsAux, hn]

theorem digitChar_inj {a b : Nat} (ha : a < 10) (hb : b < 10)
    (h : Nat.digitChar a = Nat.digitChar b) : a = b := by
  interval_cases a <;> interval_cases b <;> simp_all [Nat.digitChar]

theorem decCharsAux_inj : ∀ m n : Nat,
    decCharsAux m m = decCharsAux n n → m = n := by
  intro m
  induction m using Nat.strong_induction_on with
  | _ m ih =>
    intro n h
    by_cases hm : m = 0
    · subst hm
      by_contra hne
      exact decCharsAux_ne_nil (Ne.symm hne) (Nat.le_refl n)
        (by simpa [decCharsAux] using h.symm)
    · by_cases hn : n = 0
      · subst hn
        exact absurd h (by simpa [decCharsAux] using decCharsAux_ne_nil hm (Nat.le_refl m))
      · match m, n with
        | m' + 1, n' + 1 =>
          simp only [decCharsAux, hm, hn, if_false] at h
          have hpair := List.append_inj' h rfl
          have hdig : (m' + 1) % 10 = (n' + 1) % 10 := by
            have := hpair.2
            simp only [List.cons.injEq, and_true] at this
            exact digitChar_inj (Nat.mod_lt _ (by omega)) (Nat.mod_lt _ (by omega)) this
          have hmlt : (m' + 1) / 10 < m' + 1 := Nat.div_lt_self (by omega) (by omega)
          have hnlt : (n' + 1) / 10 < n' + 1 := Nat.div_lt_self (by omega) (by omega)
          have hpre : decCharsAux ((m' + 1) / 10) ((m' + 1) / 10)
              = decCharsAux ((n' + 1) / 10) ((n' + 1) / 10) := by
            calc decCharsAux ((m' + 1) / 10) ((m' + 1) / 10)
                = decCharsAux ((m' + 1) / 10) m' :=
                  decCharsAux_fuel _ _ _ (Nat.le_refl _) (by omega)
              _ = decCharsAux ((n' + 1) / 10) n' := hpair.1
              _ = decCharsAux ((n' + 1) / 10) ((n' + 1) / 10) :=
                  decCharsAux_fuel _ _ _ (by omega) (Nat.le_refl _)
          have hdiv : (m' + 1) / 10 = (n' + 1) / 10 := ih _ hmlt _ hpre
          have h1 := Nat.div_add_mod (m' + 1) 10
          have h2 := Nat.div_add_mod (n' + 1) 10
          omega

theorem decCharsAux_ne_zeroChar {n fuel : Nat} (hn : n ≠ 0) (hf : n ≤ fuel) :
    decCharsAux n fuel ≠ ['0'] := by
  match fuel with
  | 0 => omega
  | f + 1 =>
    simp only [decCharsAux, hn, if_false]
    intro h
    match hpre : decCharsAux (n / 10) f with
    | [] =>
      rw [hpre, List.nil_append] at h
      have hd : (n % 10).digitChar = '0' := by
        simpa using h
      have h10 : n % 10 = 0 :=
        digitChar_inj (Nat.mod_lt _ (by omega)) (by omega) (by simpa using hd)
      have hdiv : n / 10 = 0 := by
        by_contra hne
        exact decCharsAux_ne_nil hne (by omega) hpre
      omega
    | c :: cs =>
      rw [hpre] at h
      have := congrArg List.length h
      simp at this

theorem natToDec_inj : Function.Injective natToDec := by
  intro m n h
  unfold natToDec at h
  by_cases hm : m = 0 <;> by_cases hn : n = 0 <;> simp [hm, hn] at h ⊢
  · exact absurd (congrArg String.data h).symm
      (by simpa using decCharsAux_ne_zeroChar hn (Nat.le_refl n))
  · exact absurd (congrArg String.data h)
      (by simpa using decCharsAux_ne_zeroChar hm (Nat.le_refl m))
  · exact decCharsAux_inj m n (by simpa using congrArg String.data h)

/-! ### Association-list store lemmas -/

theorem storeGet_storeSet_self (s : Store) (k : String) (v : StoredValue) :
    storeGet (storeSet s k v) k = some v := by
  induction s with
  | nil => simp [storeSet, storeGet]
  | cons hd tl ih =>
    by_cases h : hd.1 = k
    · simp [storeSet, storeGet, h]
    · simp only [storeSet, h, if_false, storeGet, if_neg h]
      exact ih

theorem storeGet_storeSet_ne (s : Store) {k k' : String} (v : StoredValue)
    (h : k' ≠ k) : storeGet (storeSet s k v) k' = storeGet s k' := by
  have h' : ¬(k = k') := fun hh => h hh.symm
  induction s with
  | nil => simp [storeSet, storeGet, h']
  | cons hd tl ih =>
    by_cases hh : hd.1 = k
    · subst hh
      simp only [storeSet, if_pos rfl, storeGet, if_neg h']
    · simp only [storeSet, if_neg hh, storeGet]
      by_cases hk' : hd.1 = k'
      · rw [if_pos hk', if_pos hk']
      · rw [if_neg hk', if_neg hk']
        exact ih

theorem storeGet_storeRemove_self (s : Store) (k : String) :
    storeGet (storeRemove s k) k = none := by
  induction s with
  | nil => simp [storeRemove, storeGet]
  | cons hd tl ih =>
    by_cases h : hd.1 = k
    · simpa [storeRemove, h] using ih
    · simp only [storeRemove, if_neg h, storeGet, if_neg h]
      exact ih


theorem storeGet_storeRemove_ne (s : Store) {k k' : String} (h : k' ≠ k) :
    storeGet (storeRemove s k) k' = storeGet s k' := by
  induction s with
  | nil => simp [storeRemove]
  | cons hd tl ih =>
    by_cases hh : hd.1 = k
    · subst hh
      simp only [storeRemove, if_pos rfl, storeGet]
      rw [if_neg (fun hk : hd.1 = k' => h (hk.symm.trans rfl))]
      exact ih
    · simp only [storeRemove, if_neg hh, storeGet]
      by_cases hk' : hd.1 = k'
      · rw [if_pos hk', if_pos hk']
      · rw [if_neg hk', if_neg hk']
        exact ih

theorem storeGet_storeMultiRemove (ks : List String) :
    ∀ (s : Store) (k : String),
      storeGet (storeMultiRemove s ks) k =
        if k ∈ ks then none else storeGet s k := by
  induction ks with
  | nil => intro s k; simp [storeMultiRemove]
  | cons hd tl ih =>
    intro s k
    have hstep : storeMultiRemove s (hd :: tl)
        = storeMultiRemove (storeRemove s hd) tl := rfl
    rw [hstep, ih]
    by_cases h1 : k ∈ tl
    · simp [h1]
    · by_cases h2 : k = hd
      · subst h2
        simp [h1, storeGet_storeRemove_self]
      · simp [h1, h2, storeGet_storeRemove_ne s h2]

/-! ### Storage keys are collision-free -/

theorem ne_of_take_data_ne (a b : String) (n : Nat)
    (h : a.data.take n ≠ b.data.take n) : a ≠ b :=
  fun hh => h (by rw [hh])

theorem take16_metaLit (rest : List Char) :
    List.take 16 ("prysm_playlist_meta_".data ++ rest)
      = List.take 16 "prysm_playlist_meta_".data :=
  List.take_append_of_le_length (by decide)

theorem take16_chunkLit (rest : List Char) :
    List.take 16 ("prysm_playlist_chunks_".data ++ rest)
      = List.take 16 "prysm_playlist_chunks_".data :=
  List.take_append_of_le_length (by decide)

theorem take15_metaLit (rest : List Char) :
    List.take 15 ("prysm_playlist_meta_".data ++ rest)
      = List.take 15 "prysm_playlist_meta_".data :=
  List.take_append_of_le_length (by decide)

theorem take15_chunkLit (rest : List Char) :
    List.take 15 ("prysm_playlist_chunks_".data ++ rest)
      = List.take 15 "prysm_playlist_chunks_".data :=
  List.take_append_of_le_length (by decide)

theorem take7_metaLit (rest : List Char) :
    List.take 7 ("prysm_playlist_meta_".data ++ rest)
      = List.take 7 "prysm_playlist_meta_".data :=
  List.take_append_of_le_length (by decide)

theorem take7_chunkLit (rest : List Char) :
    List.take 7 ("prysm_playlist_chunks_".data ++ rest)
      = List.take 7 "prysm_playlist_chunks_".data :=
  List.take_append_of_le_length (by decide)

theorem chunkKey_inj {id : String} {i j : Nat}
    (h : chunkKey id i = chunkKey id j) : i = j := by
  have hd := congrArg String.data h
  simp only [chunkKey, String.data_append, List.append_assoc] at hd
  exact natToDec_inj (String.ext
    (List.append_cancel_left (List.append_cancel_left (List.append_cancel_left hd))))

theorem metaKey_ne_chunkKey (id id' : String) (i : Nat) :
    metaKey id ≠ chunkKey id' i := by
  apply ne_of_take_data_ne _ _ 16
  simp only [metaKey, chunkKey, String.data_append, List.append_assoc]
  rw [take16_metaLit, take16_chunkLit]
  decide

theorem playlistsKey_ne_metaKey (id : String) : playlistsKey ≠ metaKey id := by
  apply ne_of_take_data_ne _ _ 15
  simp only [metaKey, String.data_append]
  rw [take15_metaLit]
  decide

theorem playlistsKey_ne_chunkKey (id : String) (i : Nat) :
    playlistsKey ≠ chunkKey id i := by
  apply ne_of_take_data_ne _ _ 15
  simp only [chunkKey, String.data_append, List.append_assoc]
  rw [take15_chunkLit]
  decide

theorem activeKey_ne_metaKey (id : String) :
    activePlaylistKey ≠ metaKey id := by
  apply ne_of_take_data_ne _ _ 7
  simp only [metaKey, String.data_append]
  rw [take7_metaLit]
  decide

theorem activeKey_ne_chunkKey (id : String) (i : Nat) :
    activePlaylistKey ≠ chunkKey id i := by
  apply ne_of_take_data_ne _ _ 7
  simp only [chunkKey, String.data_append, List.append_assoc]
  rw [take7_chunkLit]
  decide

theorem activeKey_ne_playlistsKey : activePlaylistKey ≠ playlistsKey := by
  decide

/-! ### The chunk-writing loop -/

theorem writeChunks_ok (env : Env) (pid : String) (channels : List Channel)
    (meta : PlaylistMeta) :
    ∀ (idxs : List Nat) (s : Store),
      (∀ i ∈ idxs, env.setFail (chunkKey pid i) = none) →
      writeChunks env pid channels meta idxs s
        = (chunkWrites pid channels idxs s, meta, none) := by
  intro idxs
  induction idxs with
  | nil => intro s _; rfl
  | cons i rest ih =>
    intro s h
    have hi : env.setFail (chunkKey pid i) = none := h i (List.mem_cons_self i rest)
    simp only [writeChunks, setItem, hi]
    rw [ih _ (fun j hj => h j (List.mem_cons_of_mem _ hj))]
    rfl

theorem chunkWrites_append (pid : String) (channels : List Channel)
    (a b : List Nat) (s : Store) :
    chunkWrites pid channels (a ++ b) s
      = chunkWrites pid channels b (chunkWrites pid channels a s) :=
  List.foldl_append _ _ _ _

theorem storeGet_chunkWrites_not_mem (pid : String) (channels : List Channel) :
    ∀ (idxs : List Nat) (s : Store) (k : String),
      (∀ i ∈ idxs, k ≠ chunkKey pid i) →
      storeGet (chunkWrites pid channels idxs s) k = storeGet s k := by
  intro idxs
  induction idxs with
  | nil => intro s k _; rfl
  | cons i rest ih =>
    intro s k h
    have : chunkWrites pid channels (i :: rest) s
        = chunkWrites pid channels rest
            (storeSet s (chunkKey pid i) (.chunk (chunkSlice channels i))) := rfl
    rw [this, ih _ _ (fun j hj => h j (List.mem_cons_of_mem _ hj)),
      storeGet_storeSet_ne _ _ (h i (List.mem_cons_self i rest))]

theorem storeGet_chunkWrites_range (pid : String) (channels : List Channel) :
    ∀ (n : Nat) (s : Store) (j : Nat), j < n →
      storeGet (chunkWrites pid channels (List.range n) s) (chunkKey pid j)
        = some (.chunk (chunkSlice channels j)) := by
  intro n
  induction n with
  | zero => intro s j h; omega
  | succ n ih =>
    intro s j h
    rw [List.range_succ, chunkWrites_append]
    by_cases hj : j = n
    · subst hj
      exact storeGet_storeSet_self _ _ _
    · have hne : chunkKey pid j ≠ chunkKey pid n :=
        fun hk => hj (chunkKey_inj hk)
      show storeGet (storeSet _ (chunkKey pid n) _) (chunkKey pid j) = _
      rw [storeGet_storeSet_ne _ _ hne]
      exact ih s j (by omega)

/-! ### Normal form of a fully-successful save -/

theorem savePlaylistList_noFail (env : Env) (s : Store) (l : List PlaylistInfo)
    (h : env.setFail playlistsKey = none) :
    savePlaylistList env s l = storeSet s playlistsKey (.list l) := by
  simp [savePlaylistList, setItem, h]

theorem setActivePlaylistId_noFail (env : Env) (s : Store) (id : String)
    (h : env.setFail activePlaylistKey = none) :
    setActivePlaylistId env s id = storeSet s activePlaylistKey (.str id) := by
  simp [setActivePlaylistId, setItem, h]

theorem savePlaylist_noFail (env : Env) (s : Store) (p : Playlist)
    (ty : PlaylistType) (creds : Option XtreamCredentials)
    (hfail : ∀ k, env.setFail k = none) :
    savePlaylist env s p ty creds =
      (storeSet
        (storeSet
          (chunkWrites p.id p.channels (List.range (ceilChunks p.channels.length))
            (storeSet s (metaKey p.id) (.meta (saveMeta p ty creds))))
          playlistsKey
          (.list (upsertInfo
            (getPlaylistList
              (chunkWrites p.id p.channels (List.range (ceilChunks p.channels.length))
                (storeSet s (metaKey p.id) (.meta (saveMeta p ty creds)))))
            p.id (saveInfo p ty creds (saveMeta p ty creds)))))
        activePlaylistKey (.str p.id),
      none) := by
  unfold savePlaylist savePlaylistBody
  simp only [setItem, hfail]
  rw [writeChunks_ok env p.id p.channels _ _ _ (fun i _ => hfail _)]
  simp only [savePlaylistList_noFail env _ _ (hfail _),
    setActivePlaylistId_noFail env _ _ (hfail _)]
  rfl

/-! ### Reconstruction of the channel list from its chunks -/

theorem chunkSlice_eq_take (channels : List Channel) (i : Nat) :
    chunkSlice channels i
      = ((channels.drop (i * CHUNK_SIZE)).take CHUNK_SIZE).map minimizeChannel := by
  have h : List.take (min (i * CHUNK_SIZE + CHUNK_SIZE) channels.length - i * CHUNK_SIZE)
      (channels.drop (i * CHUNK_SIZE))
      = List.take CHUNK_SIZE (channels.drop (i * CHUNK_SIZE)) := by
    apply List.take_eq_take.mpr
    simp only [List.length_drop]
    omega
  dsimp only [chunkSlice]
  rw [h]

theorem joinChunksTake (c : Nat) (hc : 0 < c) :
    ∀ (n : Nat) (l : List α), l.length ≤ n →
      ((List.range ((l.length + c - 1) / c)).map
        (fun i => (l.drop (i * c)).take c)).flatten = l := by
  intro n
  induction n with
  | zero =>
    intro l hl
    have : l = [] := List.eq_nil_of_length_eq_zero (by omega)
    subst this
    simp [Nat.div_eq_of_lt (by omega : c - 1 < c)]
  | succ n ih =>
    intro l hl
    by_cases hnil : l.length = 0
    · have : l = [] := List.eq_nil_of_length_eq_zero hnil
      subst this
      simp [Nat.div_eq_of_lt (by omega : c - 1 < c)]
    · have h1 : l.length + c - 1 = (l.length - 1) + c := by omega
      have h2 : (l.length + c - 1) / c = (l.length - 1) / c + 1 := by
        rw [h1, Nat.add_div_right _ hc]
      rw [h2, List.range_succ_eq_map, List.map_cons, List.map_map]
      have hdrop : ∀ i : Nat, l.drop ((i + 1) * c) = (l.drop c).drop (i * c) := by
        intro i
        rw [List.drop_drop]
        congr 1
        ring
      have hmapeq :
          (List.range ((l.length - 1) / c)).map
              ((fun i => (l.drop (i * c)).take c) ∘ (· + 1))
            = (List.range ((l.length - 1) / c)).map
                (fun i => ((l.drop c).drop (i * c)).take c) := by
        apply List.map_congr_left
        intro i _
        simp only [Function.comp]
        rw [hdrop i]
      have hcount : ((l.drop c).length + c - 1) / c = (l.length - 1) / c := by
        simp only [List.length_drop]
        rcases Nat.lt_or_ge l.length c with hlt | hge
        · have e1 : (l.length - c + c - 1) / c = 0 := Nat.div_eq_of_lt (by omega)
          have e2 : (l.length - 1) / c = 0 := Nat.div_eq_of_lt (by omega)
          rw [e1, e2]
        · have e3 : l.length - c + c - 1 = l.length - 1 := by omega
          rw [e3]
      have hih : ((List.range (((l.drop c).length + c - 1) / c)).map
          (fun i => ((l.drop c).drop (i * c)).take c)).flatten = l.drop c :=
        ih (l.drop c) (by simp only [List.length_drop]; omega)
      rw [hcount] at hih
      simp only [List.flatten_cons, hmapeq, hih]
      simp [List.take_append_drop]

theorem readChunks_eq (s : Store) (id : String) (f : Nat → List MinimalChannel) :
    ∀ (n : Nat),
      (∀ i, i < n → storeGet s (chunkKey id i) = some (.chunk (f i))) →
      readChunks s id n
        = ((List.range n).map (fun i => (f i).map expandChannel)).flatten := by
  intro n
  induction n with
  | zero => intro _; rfl
  | succ n ih =>
    intro h
    have hstep : readChunks s id (n + 1)
        = (List.range (n + 1)).foldl
            (fun acc i =>
              match storeGet s (chunkKey id i) with
              | some (.chunk c) => acc ++ c.map expandChannel
              | _ => acc) [] := rfl
    rw [hstep, List.range_succ, List.foldl_append]
    have hprev : (List.range n).foldl
        (fun acc i =>
          match storeGet s (chunkKey id i) with
          | some (.chunk c) => acc ++ c.map expandChannel
          | _ => acc) [] = readChunks s id n := rfl
    rw [hprev, ih (fun i hi => h i (by omega))]
    simp only [List.foldl_cons, List.foldl_nil, h n (by omega)]
    rw [List.map_append, List.flatten_append]
    simp

/-- Round-tripping a channel through the minimized projection preserves the
five persisted fields, provided the logo is not the (falsy) empty string. -/
theorem expand_minimize (c : Channel) (hlogo : c.logo ≠ some "") :
    (expandChannel (minimizeChannel c)).id = c.id ∧
    (expandChannel (minimizeChannel c)).name = c.name ∧
    (expandChannel (minimizeChannel c)).url = c.url ∧
    (expandChannel (minimizeChannel c)).group = c.group ∧
    (expandChannel (minimizeChannel c)).logo = c.logo := by
  unfold expandChannel minimizeChannel
  refine ⟨rfl, rfl, rfl, rfl, ?_⟩
  match hc : c.logo with
  | none => rfl
  | some s =>
    have : s ≠ "" := fun hh => hlogo (by rw [hc, hh])
    simp [this]

/-! ### Claim C1: save/load round trip -/

theorem getPlaylist_of_meta (s : Store) (id : String) (hid : id ≠ "")
    (m : PlaylistMeta) (hm : storeGet s (metaKey id) = some (.meta m)) :
    getPlaylist s (some id)
      = some { id := m.id, name := m.name, url := m.url,
               categories := m.categories, lastUpdated := m.lastUpdated,
               channels := readChunks s id m.chunkCount } := by
  simp [getPlaylist, hid, hm]

/-- Under a fully-successful save, the final store still holds the original
metadata record, and every chunk record it references. -/
theorem savePlaylist_noFail_getMeta (env : Env) (s : Store) (p : Playlist)
    (ty : PlaylistType) (creds : Option XtreamCredentials)
    (hfail : ∀ k, env.setFail k = none) :
    storeGet (savePlaylist env s p ty creds).1 (metaKey p.id)
      = some (.meta (saveMeta p ty creds)) := by
  rw [savePlaylist_noFail env s p ty creds hfail]
  show storeGet (storeSet (storeSet _ playlistsKey _) activePlaylistKey _) _ = _
  rw [storeGet_storeSet_ne _ _ (activeKey_ne_metaKey p.id).symm,
    storeGet_storeSet_ne _ _ (playlistsKey_ne_metaKey p.id).symm,
    storeGet_chunkWrites_not_mem _ _ _ _ _
      (fun i _ => metaKey_ne_chunkKey p.id p.id i),
    storeGet_storeSet_self]

theorem savePlaylist_noFail_getChunk (env : Env) (s : Store) (p : Playlist)
    (ty : PlaylistType) (creds : Option XtreamCredentials)
    (hfail : ∀ k, env.setFail k = none) (i : Nat)
    (hi : i < ceilChunks p.channels.length) :
    storeGet (savePlaylist env s p ty creds).1 (chunkKey p.id i)
      = some (.chunk (chunkSlice p.channels i)) := by
  rw [savePlaylist_noFail env s p ty creds hfail]
  show storeGet (storeSet (storeSet _ playlistsKey _) activePlaylistKey _) _ = _
  rw [storeGet_storeSet_ne _ _ (activeKey_ne_chunkKey p.id i).symm,
    storeGet_storeSet_ne _ _ (playlistsKey_ne_chunkKey p.id i).symm,
    storeGet_chunkWrites_range p.id p.channels _ _ i hi]

/-- The channel list read back after a fully-successful save is exactly the
original list pushed through minimize-then-expand. -/
theorem savePlaylist_noFail_channels (env : Env) (s : Store) (p : Playlist)
    (ty : PlaylistType) (creds : Option XtreamCredentials)
    (hfail : ∀ k, env.setFail k = none) :
    readChunks (savePlaylist env s p ty creds).1 p.id
        (ceilChunks p.channels.length)
      = p.channels.map (fun c => expandChannel (minimizeChannel c)) := by
  rw [readChunks_eq _ _ (chunkSlice p.channels) _
    (fun i hi => savePlaylist_noFail_getChunk env s p ty creds hfail i hi)]
  have h1 : (List.range (ceilChunks p.channels.length)).map
      (fun i => (chunkSlice p.channels i).map expandChannel)
      = ((List.range (ceilChunks p.channels.length)).map
          (chunkSlice p.channels)).map (List.map expandChannel) := by
    rw [List.map_map]
    rfl
  have h2 : (List.range (ceilChunks p.channels.length)).map (chunkSlice p.channels)
      = (List.range (ceilChunks p.channels.length)).map
          (fun i => ((p.channels.map minimizeChannel).drop (i * CHUNK_SIZE)).take
            CHUNK_SIZE) := by
    apply List.map_congr_left
    intro i _
    rw [chunkSlice_eq_take, List.map_take, List.map_drop]
  have h3 : ceilChunks p.channels.length
      = ((p.channels.map minimizeChannel).length + CHUNK_SIZE - 1) / CHUNK_SIZE := by
    rw [List.length_map]
    rfl
  have hflat : ((List.range (ceilChunks p.channels.length)).map
      (chunkSlice p.channels)).flatten = p.channels.map minimizeChannel := by
    rw [h2, h3]
    exact joinChunksTake CHUNK_SIZE (by decide)
      (p.channels.map minimizeChannel).length
      (p.channels.map minimizeChannel) (Nat.le_refl _)
  rw [h1, ← List.map_flatten, hflat, List.map_map]
  rfl

/-- **C1** (amended).  If `savePlaylist(P)` completes with no storage failure,
`getPlaylist(P.id)` returns a playlist whose channel list has the same length
and order as `P.channels`, agreeing channel-by-channel on id, name, url,
group and logo — provided `P.id` is non-empty (an empty id is falsy and makes
`getPlaylist` fall back to the active playlist) and no channel carries the
falsy empty-string logo, which `minimizeChannel` silently drops (see
`C1_counterexample`). -/
theorem C1_roundtrip (env : Env) (s : Store) (p : Playlist)
    (ty : PlaylistType) (creds : Option XtreamCredentials)
    (hid : p.id ≠ "")
    (hlogo : ∀ c ∈ p.channels, c.logo ≠ some "")
    (hfail : ∀ k, env.setFail k = none) :
    (savePlaylist env s p ty creds).2 = none ∧
    ∃ q : Playlist,
      getPlaylist (savePlaylist env s p ty creds).1 (some p.id) = some q ∧
      q.channels.length = p.channels.length ∧
      ∀ (i : Nat) (hq : i < q.channels.length) (hp : i < p.channels.length),
        (q.channels.get ⟨i, hq⟩).id = (p.channels.get ⟨i, hp⟩).id ∧
        (q.channels.get ⟨i, hq⟩).name = (p.channels.get ⟨i, hp⟩).name ∧
        (q.channels.get ⟨i, hq⟩).url = (p.channels.get ⟨i, hp⟩).url ∧
        (q.channels.get ⟨i, hq⟩).group = (p.channels.get ⟨i, hp⟩).group ∧
        (q.channels.get ⟨i, hq⟩).logo = (p.channels.get ⟨i, hp⟩).logo := by
  constructor
  · rw [savePlaylist_noFail env s p ty creds hfail]
  · refine ⟨_, getPlaylist_of_meta _ p.id hid (saveMeta p ty creds)
      (savePlaylist_noFail_getMeta env s p ty creds hfail), ?_, ?_⟩
    · show (readChunks _ p.id (saveMeta p ty creds).chunkCount).length = _
      have hcc : (saveMeta p ty creds).chunkCount = ceilChunks p.channels.length := rfl
      rw [hcc, savePlaylist_noFail_channels env s p ty creds hfail, List.length_map]
    · intro i hq hp
      have hcc : (saveMeta p ty creds).chunkCount = ceilChunks p.channels.length := rfl
      have hch : readChunks (savePlaylist env s p ty creds).1 p.id
          (saveMeta p ty creds).chunkCount
          = p.channels.map (fun c => expandChannel (minimizeChannel c)) := by
        rw [hcc]
        exact savePlaylist_noFail_channels env s p ty creds hfail
      have hq' : i < (p.channels.map
          (fun c => expandChannel (minimizeChannel c))).length := by
        rw [← hch]
        exact hq
      have hget : (readChunks (savePlaylist env s p ty creds).1 p.id
            (saveMeta p ty creds).chunkCount).get ⟨i, hq⟩
          = expandChannel (minimizeChannel (p.channels.get ⟨i, hp⟩)) := by
        have := List.get_of_eq hch ⟨i, hq⟩
        rw [this]
        simp [List.get_eq_getElem, List.getElem_map]
      show ((readChunks _ p.id (saveMeta p ty creds).chunkCount).get ⟨i, hq⟩).id
          = _ ∧ _
      rw [hget]
      exact expand_minimize (p.channels.get ⟨i, hp⟩)
        (hlogo _ (List.get_mem p.channels i hp))

/-- **C1 counterexample**: a channel whose `logo` is the empty string is
persisted without it (`if (channel.logo)` is falsy), so after a failure-free
save, `getPlaylist` returns the channel with `logo` absent rather than the
original `""` — the i-th channels disagree on `logo`. -/
theorem C1_counterexample :
    (getPlaylist (savePlaylist noFailEnv [] logoPlaylist PlaylistType.m3u none).1
        (some "p1")).map (fun q => q.channels.map Channel.logo) = some [none] ∧
    logoPlaylist.channels.map Channel.logo = [some ""] ∧
    (none : Option String) ≠ some "" := by
  refine ⟨?_, by decide, by decide⟩
  decide

/-- Witness for `C1_roundtrip` at a concrete input. -/
theorem C1_roundtrip_witness :
    (savePlaylist noFailEnv [] samplePlaylist PlaylistType.m3u none).2 = none ∧
    ∃ q : Playlist,
      getPlaylist (savePlaylist noFailEnv [] samplePlaylist PlaylistType.m3u none).1
          (some samplePlaylist.id) = some q ∧
      q.channels.length = samplePlaylist.channels.length ∧
      ∀ (i : Nat) (hq : i < q.channels.length)
        (hp : i < samplePlaylist.channels.length),
        (q.channels.get ⟨i, hq⟩).id = (samplePlaylist.channels.get ⟨i, hp⟩).id ∧
        (q.channels.get ⟨i, hq⟩).name = (samplePlaylist.channels.get ⟨i, hp⟩).name ∧
        (q.channels.get ⟨i, hq⟩).url = (samplePlaylist.channels.get ⟨i, hp⟩).url ∧
        (q.channels.get ⟨i, hq⟩).group = (samplePlaylist.channels.get ⟨i, hp⟩).group ∧
        (q.channels.get ⟨i, hq⟩).logo = (samplePlaylist.channels.get ⟨i, hp⟩).logo := by
  have h := C1_roundtrip noFailEnv [] samplePlaylist PlaylistType.m3u none
    (by decide) (by decide) (fun k => rfl)
  simpa using h

/-! ### Claim C2: quota truncation during the chunk loop -/

theorem storeGet_setActive_ne (env : Env) (s : Store) (id k : String)
    (h : k ≠ activePlaylistKey) :
    storeGet (setActivePlaylistId env s id) k = storeGet s k := by
  unfold setActivePlaylistId setItem
  match env.setFail activePlaylistKey with
  | some e => rfl
  | none => exact storeGet_storeSet_ne _ _ h

theorem storeGet_savePlaylistList_ne (env : Env) (s : Store)
    (l : List PlaylistInfo) (k : String) (h : k ≠ playlistsKey) :
    storeGet (savePlaylistList env s l) k = storeGet s k := by
  unfold savePlaylistList setItem
  match env.setFail playlistsKey with
  | some e => rfl
  | none => exact storeGet_storeSet_ne _ _ h

theorem writeChunks_prefix (env : Env) (pid : String) (channels : List Channel)
    (meta : PlaylistMeta) :
    ∀ (idxs rest : List Nat) (s : Store),
      (∀ i ∈ idxs, env.setFail (chunkKey pid i) = none) →
      writeChunks env pid channels meta (idxs ++ rest) s
        = writeChunks env pid channels meta rest (chunkWrites pid channels idxs s) := by
  intro idxs
  induction idxs with
  | nil => intro rest s _; rfl
  | cons i tl ih =>
    intro rest s h
    have hi : env.setFail (chunkKey pid i) = none := h i (List.mem_cons_self i tl)
    show writeChunks env pid channels meta ((i :: tl) ++ rest) s = _
    simp only [List.cons_append, writeChunks, setItem, hi]
    exact ih rest _ (fun j hj => h j (List.mem_cons_of_mem _ hj))

theorem writeChunks_diskFull (env : Env) (pid : String) (channels : List Channel)
    (meta : PlaylistMeta) (k : Nat) (rest : List Nat) (e : JSError) (s : Store)
    (hk : env.setFail (chunkKey pid k) = some e)
    (hdisk : isDiskFull e = true)
    (hmeta : env.setFail (metaKey pid) = none) :
    writeChunks env pid channels meta (k :: rest) s
      = (storeSet s (metaKey pid)
          (.meta { meta with chunkCount := k, totalChannels := k * CHUNK_SIZE }),
         { meta with chunkCount := k, totalChannels := k * CHUNK_SIZE }, none) := by
  simp only [writeChunks, setItem, hk, hdisk, hmeta, if_true]

/-- Normal form of a save whose chunk writes run out of space at index `k`. -/
theorem savePlaylist_truncated (env : Env) (s : Store) (p : Playlist)
    (ty : PlaylistType) (creds : Option XtreamCredentials) (k : Nat) (e : JSError)
    (hk : k < ceilChunks p.channels.length)
    (hmeta : env.setFail (metaKey p.id) = none)
    (hbelow : ∀ i, i < k → env.setFail (chunkKey p.id i) = none)
    (hfailk : env.setFail (chunkKey p.id k) = some e)
    (hdisk : isDiskFull e = true) :
    savePlaylist env s p ty creds
      = (setActivePlaylistId env
          (savePlaylistList env
            (storeSet
              (chunkWrites p.id p.channels (List.range k)
                (storeSet s (metaKey p.id) (.meta (saveMeta p ty creds))))
              (metaKey p.id)
              (.meta { saveMeta p ty creds with
                       chunkCount := k, totalChannels := k * CHUNK_SIZE }))
            (upsertInfo
              (getPlaylistList
                (storeSet
                  (chunkWrites p.id p.channels (List.range k)
                    (storeSet s (metaKey p.id) (.meta (saveMeta p ty creds))))
                  (metaKey p.id)
                  (.meta { saveMeta p ty creds with
                           chunkCount := k, totalChannels := k * CHUNK_SIZE })))
              p.id
              (saveInfo p ty creds
                { saveMeta p ty creds with
                  chunkCount := k, totalChannels := k * CHUNK_SIZE })))
          p.id,
        none) := by
  unfold savePlaylist savePlaylistBody
  simp only [setItem, hmeta]
  have hsplit : List.range (ceilChunks p.channels.length)
      = List.range k ++ (k :: ((List.range (ceilChunks p.channels.length - (k + 1))).map
          (fun x => k + 1 + x))) := by
    have h1 : ceilChunks p.channels.length
        = (k + 1) + (ceilChunks p.channels.length - (k + 1)) := by omega
    conv_lhs => rw [h1]
    rw [List.range_add, List.range_succ, List.append_assoc]
    rfl
  rw [show ((p.channels.length + CHUNK_SIZE - 1) / CHUNK_SIZE)
      = ceilChunks p.channels.length from rfl]
  rw [hsplit, writeChunks_prefix env p.id p.channels _ _ _ _
    (fun i hi => hbelow i (List.mem_range.mp hi)),
    writeChunks_diskFull env p.id p.channels _ k _ e _ hfailk hdisk hmeta]
  rfl

/-- Length of a full (non-final) chunk. -/
theorem chunkSlice_length_full (channels : List Channel) (i : Nat)
    (h : (i + 1) * CHUNK_SIZE ≤ channels.length) :
    (chunkSlice channels i).length = CHUNK_SIZE := by
  rw [chunkSlice_eq_take, List.length_map, List.length_take, List.length_drop]
  simp only [CHUNK_SIZE] at h ⊢
  omega

theorem flatten_length_const (g : Nat → List Channel) (c : Nat) :
    ∀ n : Nat, (∀ i, i < n → (g i).length = c) →
      (((List.range n).map g).flatten).length = n * c := by
  intro n
  induction n with
  | zero => intro _; simp
  | succ n ih =>
    intro h
    rw [List.range_succ, List.map_append, List.flatten_append,
      List.length_append, ih (fun i hi => h i (by omega))]
    simp only [List.map_cons, List.map_nil, List.flatten_cons, List.flatten_nil,
      List.append_nil, h n (by omega)]
    ring

/-- **C2**.  If every chunk write below `k` succeeds and the write of chunk
`k` fails with the store's out-of-space error, the save stops, rewrites the
metadata to `chunkCount = k`, `totalChannels = k * 300`, returns successfully,
and a subsequent `getPlaylist` returns exactly `k * 300` channels. -/
theorem C2_quota_truncation (env : Env) (s : Store) (p : Playlist)
    (ty : PlaylistType) (creds : Option XtreamCredentials) (k : Nat) (e : JSError)
    (hid : p.id ≠ "")
    (hk : k < ceilChunks p.channels.length)
    (hmeta : env.setFail (metaKey p.id) = none)
    (hbelow : ∀ i, i < k → env.setFail (chunkKey p.id i) = none)
    (hfailk : env.setFail (chunkKey p.id k) = some e)
    (hdisk : isDiskFull e = true) :
    (savePlaylist env s p ty creds).2 = none ∧
    (∃ m : PlaylistMeta,
      storeGet (savePlaylist env s p ty creds).1 (metaKey p.id) = some (.meta m) ∧
      m.chunkCount = k ∧ m.totalChannels = k * CHUNK_SIZE) ∧
    (∃ q : Playlist,
      getPlaylist (savePlaylist env s p ty creds).1 (some p.id) = some q ∧
      q.channels.length = k * CHUNK_SIZE) := by
  have hnf := savePlaylist_truncated env s p ty creds k e hk hmeta hbelow hfailk hdisk
  have hmetaget : storeGet (savePlaylist env s p ty creds).1 (metaKey p.id)
      = some (.meta { saveMeta p ty creds with
                      chunkCount := k, totalChannels := k * CHUNK_SIZE }) := by
    rw [hnf]
    show storeGet (setActivePlaylistId _ (savePlaylistList _ _ _) _) _ = _
    rw [storeGet_setActive_ne _ _ _ _ (activeKey_ne_metaKey p.id).symm,
      storeGet_savePlaylistList_ne _ _ _ _ (playlistsKey_ne_metaKey p.id).symm,
      storeGet_storeSet_self]
  have hchunkget : ∀ i, i < k →
      storeGet (savePlaylist env s p ty creds).1 (chunkKey p.id i)
        = some (.chunk (chunkSlice p.channels i)) := by
    intro i hi
    rw [hnf]
    show storeGet (setActivePlaylistId _ (savePlaylistList _ _ _) _) _ = _
    rw [storeGet_setActive_ne _ _ _ _ (activeKey_ne_chunkKey p.id i).symm,
      storeGet_savePlaylistList_ne _ _ _ _ (playlistsKey_ne_chunkKey p.id i).symm,
      storeGet_storeSet_ne _ _ (metaKey_ne_chunkKey p.id p.id i).symm,
      storeGet_chunkWrites_range p.id p.channels k _ i hi]
  refine ⟨by rw [hnf], ⟨_, hmetaget, rfl, rfl⟩, ?_⟩
  refine ⟨_, getPlaylist_of_meta _ p.id hid _ hmetaget, ?_⟩
  show (readChunks _ p.id k).length = k * CHUNK_SIZE
  rw [readChunks_eq _ _ (chunkSlice p.channels) k hchunkget]
  apply flatten_length_const
  intro i hi
  rw [List.length_map]
  apply chunkSlice_length_full
  have hck : k < (p.channels.length + 300 - 1) / 300 := hk
  show (i + 1) * CHUNK_SIZE ≤ p.channels.length
  simp only [CHUNK_SIZE]
  omega

/-- Witness for `C2_quota_truncation`: a 301-channel playlist whose second
chunk write runs out of space. -/
theorem C2_quota_truncation_witness :
    (savePlaylist failAtChunk1Env [] bigPlaylist PlaylistType.m3u none).2 = none ∧
    (∃ m : PlaylistMeta,
      storeGet (savePlaylist failAtChunk1Env [] bigPlaylist PlaylistType.m3u none).1
        (metaKey bigPlaylist.id) = some (.meta m) ∧
      m.chunkCount = 1 ∧ m.totalChannels = 1 * CHUNK_SIZE) ∧
    (∃ q : Playlist,
      getPlaylist (savePlaylist failAtChunk1Env [] bigPlaylist PlaylistType.m3u none).1
        (some bigPlaylist.id) = some q ∧
      q.channels.length = 1 * CHUNK_SIZE) := by
  apply C2_quota_truncation failAtChunk1Env [] bigPlaylist PlaylistType.m3u none 1
    diskFullErr
  · decide
  · show 1 < ceilChunks (manyChannels 301).length
    rw [show (manyChannels 301).length = 301 by
      unfold manyChannels; rw [List.length_map, List.length_range]]
    decide
  · decide
  · intro i hi
    interval_cases i
    decide
  · decide
  · decide

/-! ### Claim C10: non-quota chunk-write errors propagate -/

theorem writeChunks_otherError (env : Env) (pid : String)
    (channels : List Channel) (meta : PlaylistMeta) (k : Nat) (rest : List Nat)
    (e : JSError) (s : Store)
    (hk : env.setFail (chunkKey pid k) = some e)
    (hdisk : isDiskFull e = false) :
    writeChunks env pid channels meta (k :: rest) s = (s, meta, some e) := by
  simp only [writeChunks, setItem, hk, hdisk, Bool.false_eq_true, if_false]

/-- Normal form of a save failing at chunk `j` with a non-quota error. -/
theorem savePlaylist_chunkError (env : Env) (s : Store) (p : Playlist)
    (ty : PlaylistType) (creds : Option XtreamCredentials) (j : Nat) (e : JSError)
    (hj : j < ceilChunks p.channels.length)
    (hmeta : env.setFail (metaKey p.id) = none)
    (hbelow : ∀ i, i < j → env.setFail (chunkKey p.id i) = none)
    (hfailj : env.setFail (chunkKey p.id j) = some e)
    (hdisk : isDiskFull e = false) :
    savePlaylist env s p ty creds
      = (chunkWrites p.id p.channels (List.range j)
          (storeSet s (metaKey p.id) (.meta (saveMeta p ty creds))),
         some e) := by
  unfold savePlaylist savePlaylistBody
  simp only [setItem, hmeta]
  have hsplit : List.range (ceilChunks p.channels.length)
      = List.range j ++ (j :: ((List.range (ceilChunks p.channels.length - (j + 1))).map
          (fun x => j + 1 + x))) := by
    have h1 : ceilChunks p.channels.length
        = (j + 1) + (ceilChunks p.channels.length - (j + 1)) := by omega
    conv_lhs => rw [h1]
    rw [List.range_add, List.range_succ, List.append_assoc]
    rfl
  rw [show ((p.channels.length + CHUNK_SIZE - 1) / CHUNK_SIZE)
      = ceilChunks p.channels.length from rfl]
  rw [hsplit, writeChunks_prefix env p.id p.channels _ _ _ _
    (fun i hi => hbelow i (List.mem_range.mp hi)),
    writeChunks_otherError env p.id p.channels _ j _ e _ hfailj hdisk]
  simp only [hdisk, Bool.false_eq_true, if_false]
  rfl

/-- **C10**.  A chunk-write failure that is not the out-of-space condition
propagates out of `savePlaylist`, and the summary list and active-playlist
pointer are untouched; only the metadata record and chunks below the failing
index may have been written. -/
theorem C10_error_propagation (env : Env) (s : Store) (p : Playlist)
    (ty : PlaylistType) (creds : Option XtreamCredentials) (j : Nat) (e : JSError)
    (hj : j < ceilChunks p.channels.length)
    (hmeta : env.setFail (metaKey p.id) = none)
    (hbelow : ∀ i, i < j → env.setFail (chunkKey p.id i) = none)
    (hfailj : env.setFail (chunkKey p.id j) = some e)
    (hdisk : isDiskFull e = false) :
    (savePlaylist env s p ty creds).2 = some e ∧
    getPlaylistList (savePlaylist env s p ty creds).1 = getPlaylistList s ∧
    getActivePlaylistId (savePlaylist env s p ty creds).1 = getActivePlaylistId s ∧
    ∀ k : String, k ≠ metaKey p.id → (∀ i, i < j → k ≠ chunkKey p.id i) →
      storeGet (savePlaylist env s p ty creds).1 k = storeGet s k := by
  have hnf := savePlaylist_chunkError env s p ty creds j e hj hmeta hbelow hfailj hdisk
  have hframe : ∀ k : String, k ≠ metaKey p.id →
      (∀ i, i < j → k ≠ chunkKey p.id i) →
      storeGet (savePlaylist env s p ty creds).1 k = storeGet s k := by
    intro k hkm hki
    rw [hnf]
    show storeGet (chunkWrites _ _ _ _) k = _
    rw [storeGet_chunkWrites_not_mem _ _ _ _ _
        (fun i hi => hki i (List.mem_range.mp hi)),
      storeGet_storeSet_ne _ _ hkm]
  refine ⟨by rw [hnf], ?_, ?_, hframe⟩
  · show getPlaylistList _ = _
    unfold getPlaylistList
    rw [hframe playlistsKey (playlistsKey_ne_metaKey p.id)
      (fun i _ => playlistsKey_ne_chunkKey p.id i)]
  · unfold getActivePlaylistId
    rw [hframe activePlaylistKey (activeKey_ne_metaKey p.id)
      (fun i _ => activeKey_ne_chunkKey p.id i)]

/-- Witness for `C10_error_propagation`: a 301-channel playlist whose second
chunk write fails with a non-quota error. -/
theorem C10_error_propagation_witness :
    (savePlaylist failOtherEnv [] bigPlaylist PlaylistType.m3u none).2 = some otherErr ∧
    getPlaylistList (savePlaylist failOtherEnv [] bigPlaylist PlaylistType.m3u none).1
      = getPlaylistList [] ∧
    getActivePlaylistId
        (savePlaylist failOtherEnv [] bigPlaylist PlaylistType.m3u none).1
      = getActivePlaylistId [] ∧
    ∀ k : String, k ≠ metaKey bigPlaylist.id →
      (∀ i, i < 1 → k ≠ chunkKey bigPlaylist.id i) →
      storeGet (savePlaylist failOtherEnv [] bigPlaylist PlaylistType.m3u none).1 k
        = storeGet [] k := by
  apply C10_error_propagation failOtherEnv [] bigPlaylist PlaylistType.m3u none 1
    otherErr
  · show 1 < ceilChunks (manyChannels 301).length
    rw [show (manyChannels 301).length = 301 by
      unfold manyChannels; rw [List.length_map, List.length_range]]
    decide
  · decide
  · intro i hi
    interval_cases i
    decide
  · decide
  · decide

/-! ### Claim C3: re-saving under the same id -/

theorem upsertInfo_nil (pid : String) (info : PlaylistInfo) :
    upsertInfo [] pid info = [info] := rfl

theorem upsertInfo_cons (x : PlaylistInfo) (xs : List PlaylistInfo)
    (pid : String) (info : PlaylistInfo) :
    upsertInfo (x :: xs) pid info
      = if x.id = pid then info :: xs else x :: upsertInfo xs pid info := by
  unfold upsertInfo
  rw [List.findIdx?_cons]
  by_cases h : x.id = pid
  · simp [h]
  · simp only [h, decide_False, if_false, List.findIdx?_succ]
    cases hf : List.findIdx? (fun p => decide (p.id = pid)) xs with
    | some j => simp [List.set]
    | none => simp

theorem upsertInfo_count (pid : String) (info : PlaylistInfo)
    (hinfo : info.id = pid) :
    ∀ l : List PlaylistInfo,
      (l.filter (fun q => q.id = pid)).length ≤ 1 →
      ((upsertInfo l pid info).filter (fun q => q.id = pid)).length = 1 := by
  intro l
  induction l with
  | nil =>
    intro _
    rw [upsertInfo_nil]
    simp [hinfo]
  | cons x xs ih =>
    intro h
    rw [upsertInfo_cons]
    by_cases hx : x.id = pid
    · rw [if_pos hx]
      have h0 : (xs.filter (fun q => decide (q.id = pid))).length = 0 := by
        have hh := h
        rw [List.filter_cons] at hh
        simp only [hx, decide_True, if_true, List.length_cons] at hh
        omega
      rw [List.filter_cons]
      simp only [hinfo, decide_True, if_true, List.length_cons]
      omega
    · rw [if_neg hx, List.filter_cons]
      simp only [hx, decide_False, if_false]
      apply ih
      have := h
      rw [List.filter_cons] at this
      simpa [hx] using this

theorem getPlaylistList_savePlaylist_noFail (env : Env) (s : Store)
    (p : Playlist) (ty : PlaylistType) (creds : Option XtreamCredentials)
    (hfail : ∀ k, env.setFail k = none) :
    getPlaylistList (savePlaylist env s p ty creds).1
      = upsertInfo (getPlaylistList s) p.id
          (saveInfo p ty creds (saveMeta p ty creds)) := by
  rw [savePlaylist_noFail env s p ty creds hfail]
  show getPlaylistList (storeSet (storeSet _ playlistsKey _) activePlaylistKey _) = _
  unfold getPlaylistList
  rw [storeGet_storeSet_ne _ _ activeKey_ne_playlistsKey.symm,
    storeGet_storeSet_self]
  have hS2 : storeGet
      (chunkWrites p.id p.channels (List.range (ceilChunks p.channels.length))
        (storeSet s (metaKey p.id) (.meta (saveMeta p ty creds))))
      playlistsKey = storeGet s playlistsKey := by
    rw [storeGet_chunkWrites_not_mem _ _ _ _ _
        (fun i _ => playlistsKey_ne_chunkKey p.id i),
      storeGet_storeSet_ne _ _ (playlistsKey_ne_metaKey p.id)]
  rw [hS2]

theorem savePlaylist_noFail_getChunk_high (env : Env) (s : Store) (p : Playlist)
    (ty : PlaylistType) (creds : Option XtreamCredentials)
    (hfail : ∀ k, env.setFail k = none) (i : Nat)
    (hi : ceilChunks p.channels.length ≤ i) :
    storeGet (savePlaylist env s p ty creds).1 (chunkKey p.id i)
      = storeGet s (chunkKey p.id i) := by
  rw [savePlaylist_noFail env s p ty creds hfail]
  show storeGet (storeSet (storeSet _ playlistsKey _) activePlaylistKey _) _ = _
  rw [storeGet_storeSet_ne _ _ (activeKey_ne_chunkKey p.id i).symm,
    storeGet_storeSet_ne _ _ (playlistsKey_ne_chunkKey p.id i).symm,
    storeGet_chunkWrites_not_mem _ _ _ _ _
      (fun j hj => fun hk => by
        have := chunkKey_inj hk
        have hjlt := List.mem_range.mp hj
        omega),
    storeGet_storeSet_ne _ _ (metaKey_ne_chunkKey p.id p.id i).symm]

/-- **C3** (amended).  After two failure-free saves under the same id, the
summary list holds exactly one entry for that id, and the chunk records are:
the second save's chunks at indices below its chunk count, and — contrary to
the original claim — the *surviving orphan chunks of the first save* at
indices between the second and the first chunk count.  `savePlaylist` never
deletes the chunk records of a previous larger save. -/
theorem C3_second_save (env : Env) (s : Store) (p1 p2 : Playlist)
    (ty1 ty2 : PlaylistType) (cr1 cr2 : Option XtreamCredentials)
    (hid : p2.id = p1.id)
    (hfail : ∀ k, env.setFail k = none)
    (hclean : ∀ i, storeGet s (chunkKey p1.id i) = none)
    (hsum : ((getPlaylistList s).filter (fun q => q.id = p1.id)).length ≤ 1) :
    ((getPlaylistList
        (savePlaylist env (savePlaylist env s p1 ty1 cr1).1 p2 ty2 cr2).1).filter
      (fun q => q.id = p1.id)).length = 1 ∧
    (∀ i, i < ceilChunks p2.channels.length →
      storeGet (savePlaylist env (savePlaylist env s p1 ty1 cr1).1 p2 ty2 cr2).1
          (chunkKey p1.id i)
        = some (.chunk (chunkSlice p2.channels i))) ∧
    (∀ i, ceilChunks p2.channels.length ≤ i → i < ceilChunks p1.channels.length →
      storeGet (savePlaylist env (savePlaylist env s p1 ty1 cr1).1 p2 ty2 cr2).1
          (chunkKey p1.id i)
        = some (.chunk (chunkSlice p1.channels i))) ∧
    (∀ i, ceilChunks p1.channels.length ≤ i → ceilChunks p2.channels.length ≤ i →
      storeGet (savePlaylist env (savePlaylist env s p1 ty1 cr1).1 p2 ty2 cr2).1
          (chunkKey p1.id i)
        = none) := by
  refine ⟨?_, ?_, ?_, ?_⟩
  · rw [getPlaylistList_savePlaylist_noFail env _ p2 ty2 cr2 hfail, hid]
    apply upsertInfo_count p1.id _ hid
    rw [getPlaylistList_savePlaylist_noFail env s p1 ty1 cr1 hfail]
    rw [upsertInfo_count p1.id _ rfl (getPlaylistList s) hsum]
  · intro i hi
    have hstep := savePlaylist_noFail_getChunk env
      (savePlaylist env s p1 ty1 cr1).1 p2 ty2 cr2 hfail i hi
    rw [hid] at hstep
    exact hstep
  · intro i h2 h1
    have hstep := savePlaylist_noFail_getChunk_high env
      (savePlaylist env s p1 ty1 cr1).1 p2 ty2 cr2 hfail i h2
    rw [hid] at hstep
    rw [hstep]
    exact savePlaylist_noFail_getChunk env s p1 ty1 cr1 hfail i h1
  · intro i h1 h2
    have hstep := savePlaylist_noFail_getChunk_high env
      (savePlaylist env s p1 ty1 cr1).1 p2 ty2 cr2 hfail i h2
    rw [hid] at hstep
    rw [hstep, savePlaylist_noFail_getChunk_high env s p1 ty1 cr1 hfail i h1]
    exact hclean i

/-- **C3 counterexample**: saving a 301-channel playlist (2 chunks) and then a
1-channel playlist (1 chunk) under the same id leaves the first save's chunk
record at index 1 in the store — an orphan beyond the second save's
`chunkCount` of 1, so the store does not contain exactly `chunkCount` chunk
records for the id. -/
theorem C3_counterexample :
    ceilChunks smallPlaylist.channels.length = 1 ∧
    storeGet
        (savePlaylist noFailEnv (savePlaylist noFailEnv [] bigPlaylist
          PlaylistType.m3u none).1 smallPlaylist PlaylistType.m3u none).1
        (chunkKey "p1" 1)
      = some (.chunk (chunkSlice bigPlaylist.channels 1)) := by
  have hsmall : ceilChunks smallPlaylist.channels.length = 1 := by
    show ceilChunks (manyChannels 1).length = 1
    rw [show (manyChannels 1).length = 1 by
      unfold manyChannels; rw [List.length_map, List.length_range]]
    decide
  refine ⟨hsmall, ?_⟩
  have hid2 : smallPlaylist.id = "p1" := rfl
  have h2 : storeGet
      (savePlaylist noFailEnv (savePlaylist noFailEnv [] bigPlaylist
        PlaylistType.m3u none).1 smallPlaylist PlaylistType.m3u none).1
      (chunkKey smallPlaylist.id 1)
      = storeGet (savePlaylist noFailEnv [] bigPlaylist PlaylistType.m3u none).1
          (chunkKey smallPlaylist.id 1) :=
    savePlaylist_noFail_getChunk_high noFailEnv _ smallPlaylist PlaylistType.m3u
      none (fun k => rfl) 1 (by rw [hsmall])
  rw [show chunkKey "p1" 1 = chunkKey smallPlaylist.id 1 from rfl, h2]
  have hbig : (1 : Nat) < ceilChunks bigPlaylist.channels.length := by
    show 1 < ceilChunks (manyChannels 301).length
    rw [show (manyChannels 301).length = 301 by
      unfold manyChannels; rw [List.length_map, List.length_range]]
    decide
  exact savePlaylist_noFail_getChunk noFailEnv [] bigPlaylist PlaylistType.m3u
    none (fun k => rfl) 1 hbig

/-- Witness for `C3_second_save` at a concrete pair of one-chunk playlists. -/
theorem C3_second_save_witness :
    ((getPlaylistList
        (savePlaylist noFailEnv (savePlaylist noFailEnv [] samplePlaylist
          PlaylistType.m3u none).1 smallPlaylist PlaylistType.m3u none).1).filter
      (fun q => q.id = samplePlaylist.id)).length = 1 ∧
    (∀ i, i < ceilChunks smallPlaylist.channels.length →
      storeGet (savePlaylist noFailEnv (savePlaylist noFailEnv [] samplePlaylist
          PlaylistType.m3u none).1 smallPlaylist PlaylistType.m3u none).1
          (chunkKey samplePlaylist.id i)
        = some (.chunk (chunkSlice smallPlaylist.channels i))) ∧
    (∀ i, ceilChunks smallPlaylist.channels.length ≤ i →
        i < ceilChunks samplePlaylist.channels.length →
      storeGet (savePlaylist noFailEnv (savePlaylist noFailEnv [] samplePlaylist
          PlaylistType.m3u none).1 smallPlaylist PlaylistType.m3u none).1
          (chunkKey samplePlaylist.id i)
        = some (.chunk (chunkSlice samplePlaylist.channels i))) ∧
    (∀ i, ceilChunks samplePlaylist.channels.length ≤ i →
        ceilChunks smallPlaylist.channels.length ≤ i →
      storeGet (savePlaylist noFailEnv (savePlaylist noFailEnv [] samplePlaylist
          PlaylistType.m3u none).1 smallPlaylist PlaylistType.m3u none).1
          (chunkKey samplePlaylist.id i)
        = none) :=
  C3_second_save noFailEnv [] samplePlaylist smallPlaylist PlaylistType.m3u
    PlaylistType.m3u none none rfl (fun k => rfl) (fun i => rfl) (by decide)

/-! ### Claim C5: deletion removes every referenced key -/

theorem deletePlaylist_eq (env : Env) (s : Store) (id : String)
    (m : PlaylistMeta) (hm : storeGet s (metaKey id) = some (.meta m))
    (hpl : env.setFail playlistsKey = none) :
    deletePlaylist env s id =
      (match getActivePlaylistId
          (storeSet
            (storeMultiRemove s
              (metaKey id :: (List.range m.chunkCount).map (chunkKey id)))
            playlistsKey
            (.list ((getPlaylistList
              (storeMultiRemove s
                (metaKey id :: (List.range m.chunkCount).map (chunkKey id)))).filter
              (fun p => p.id ≠ id)))) with
       | some a =>
         if a = id then
           match (getPlaylistList
              (storeMultiRemove s
                (metaKey id :: (List.range m.chunkCount).map (chunkKey id)))).filter
              (fun p => p.id ≠ id) with
           | p :: _ =>
             setActivePlaylistId env
               (storeSet
                 (storeMultiRemove s
                   (metaKey id :: (List.range m.chunkCount).map (chunkKey id)))
                 playlistsKey
                 (.list ((getPlaylistList
                   (storeMultiRemove s
                     (metaKey id :: (List.range m.chunkCount).map (chunkKey id)))).filter
                   (fun p => p.id ≠ id))))
               p.id
           | [] =>
             storeRemove
               (storeSet
                 (storeMultiRemove s
                   (metaKey id :: (List.range m.chunkCount).map (chunkKey id)))
                 playlistsKey
                 (.list ((getPlaylistList
                   (storeMultiRemove s
                     (metaKey id :: (List.range m.chunkCount).map (chunkKey id)))).filter
                   (fun p => p.id ≠ id))))
               activePlaylistKey
         else
           storeSet
             (storeMultiRemove s
               (metaKey id :: (List.range m.chunkCount).map (chunkKey id)))
             playlistsKey
             (.list ((getPlaylistList
               (storeMultiRemove s
                 (metaKey id :: (List.range m.chunkCount).map (chunkKey id)))).filter
               (fun p => p.id ≠ id)))
       | none =>
         storeSet
           (storeMultiRemove s
             (metaKey id :: (List.range m.chunkCount).map (chunkKey id)))
           playlistsKey
           (.list ((getPlaylistList
             (storeMultiRemove s
               (metaKey id :: (List.range m.chunkCount).map (chunkKey id)))).filter
             (fun p => p.id ≠ id)))) := by
  unfold deletePlaylist
  rw [hm]
  simp only [savePlaylistList_noFail env _ _ hpl]

theorem playlistsKey_not_mem_deleteKeys (id : String) (cc : Nat) :
    playlistsKey ∉ metaKey id :: (List.range cc).map (chunkKey id) := by
  intro hmem
  rcases List.mem_cons.mp hmem with h | h
  · exact playlistsKey_ne_metaKey id h
  · rcases List.mem_map.mp h with ⟨i, _, hi⟩
    exact playlistsKey_ne_chunkKey id i hi.symm

theorem activeKey_not_mem_deleteKeys (id : String) (cc : Nat) :
    activePlaylistKey ∉ metaKey id :: (List.range cc).map (chunkKey id) := by
  intro hmem
  rcases List.mem_cons.mp hmem with h | h
  · exact activeKey_ne_metaKey id h
  · rcases List.mem_map.mp h with ⟨i, _, hi⟩
    exact activeKey_ne_chunkKey id i hi.symm

/-- **C5**.  After `deletePlaylist(id)` on a store holding metadata `m` for
`id`: the metadata record and every chunk record `m` references are gone, no
summary entry for `id` remains, and the active pointer is promoted to the
first remaining summary entry (or cleared) exactly when `id` was active. -/
theorem C5_delete (env : Env) (s : Store) (id : String) (m : PlaylistMeta)
    (hm : storeGet s (metaKey id) = some (.meta m))
    (hpl : env.setFail playlistsKey = none)
    (hact : env.setFail activePlaylistKey = none) :
    storeGet (deletePlaylist env s id) (metaKey id) = none ∧
    (∀ i, i < m.chunkCount →
      storeGet (deletePlaylist env s id) (chunkKey id i) = none) ∧
    (getPlaylistList (deletePlaylist env s id)).filter
        (fun q => q.id = id) = [] ∧
    (getActivePlaylistId s = some id →
      getActivePlaylistId (deletePlaylist env s id)
        = (match (getPlaylistList s).filter (fun p => p.id ≠ id) with
           | p :: _ => some p.id
           | [] => none)) ∧
    (getActivePlaylistId s ≠ some id →
      getActivePlaylistId (deletePlaylist env s id) = getActivePlaylistId s) := by
  have hdel := deletePlaylist_eq env s id m hm hpl
  have hs1meta : storeGet
      (storeMultiRemove s (metaKey id :: (List.range m.chunkCount).map (chunkKey id)))
      (metaKey id) = none := by
    rw [storeGet_storeMultiRemove]
    simp
  have hs1chunk : ∀ i, i < m.chunkCount → storeGet
      (storeMultiRemove s (metaKey id :: (List.range m.chunkCount).map (chunkKey id)))
      (chunkKey id i) = none := by
    intro i hi
    rw [storeGet_storeMultiRemove]
    have : chunkKey id i ∈
        metaKey id :: (List.range m.chunkCount).map (chunkKey id) :=
      List.mem_cons_of_mem _ (List.mem_map.mpr ⟨i, List.mem_range.mpr hi, rfl⟩)
    simp [this]
  have hlist1 : getPlaylistList
      (storeMultiRemove s (metaKey id :: (List.range m.chunkCount).map (chunkKey id)))
      = getPlaylistList s := by
    unfold getPlaylistList
    rw [storeGet_storeMultiRemove]
    simp [playlistsKey_not_mem_deleteKeys id m.chunkCount]
  have hact1 : storeGet
      (storeMultiRemove s (metaKey id :: (List.range m.chunkCount).map (chunkKey id)))
      activePlaylistKey = storeGet s activePlaylistKey := by
    rw [storeGet_storeMultiRemove]
    simp [activeKey_not_mem_deleteKeys id m.chunkCount]
  have hact2 : getActivePlaylistId
      (storeSet
        (storeMultiRemove s (metaKey id :: (List.range m.chunkCount).map (chunkKey id)))
        playlistsKey
        (.list ((getPlaylistList
          (storeMultiRemove s
            (metaKey id :: (List.range m.chunkCount).map (chunkKey id)))).filter
          (fun p => p.id ≠ id))))
      = getActivePlaylistId s := by
    unfold getActivePlaylistId
    rw [storeGet_storeSet_ne _ _ activeKey_ne_playlistsKey, hact1]
  rw [hdel, hact2, hlist1]
  split
  next a hactv =>
    split
    next ha =>
      -- a = id: the deleted playlist was active
      split
      next phead rest hfil =>
        rw [setActivePlaylistId_noFail env _ _ hact]
        refine ⟨?_, ?_, ?_, ?_, ?_⟩
        · rw [storeGet_storeSet_ne _ _ (activeKey_ne_metaKey id).symm,
            storeGet_storeSet_ne _ _ (playlistsKey_ne_metaKey id).symm, hs1meta]
        · intro i hi
          rw [storeGet_storeSet_ne _ _ (activeKey_ne_chunkKey id i).symm,
            storeGet_storeSet_ne _ _ (playlistsKey_ne_chunkKey id i).symm,
            hs1chunk i hi]
        · unfold getPlaylistList
          rw [storeGet_storeSet_ne _ _ activeKey_ne_playlistsKey.symm,
            storeGet_storeSet_self]
          rw [List.filter_eq_nil_iff]
          intro q hq
          have := List.mem_filter.mp hq
          simp only [decide_not] at this
          simpa using this.2
        · intro _
          rw [hfil]
          unfold getActivePlaylistId
          rw [storeGet_storeSet_self]
        · intro hne
          rw [ha] at hactv
          exact absurd hactv hne
      next hfil =>
        refine ⟨?_, ?_, ?_, ?_, ?_⟩
        · rw [storeGet_storeRemove_ne _ (activeKey_ne_metaKey id).symm,
            storeGet_storeSet_ne _ _ (playlistsKey_ne_metaKey id).symm, hs1meta]
        · intro i hi
          rw [storeGet_storeRemove_ne _ (activeKey_ne_chunkKey id i).symm,
            storeGet_storeSet_ne _ _ (playlistsKey_ne_chunkKey id i).symm,
            hs1chunk i hi]
        · unfold getPlaylistList
          rw [storeGet_storeRemove_ne _ activeKey_ne_playlistsKey.symm,
            storeGet_storeSet_self]
          rw [List.filter_eq_nil_iff]
          intro q hq
          have := List.mem_filter.mp hq
          simp only [decide_not] at this
          simpa using this.2
        · intro _
          rw [hfil]
          unfold getActivePlaylistId
          rw [storeGet_storeRemove_self]
        · intro hne
          rw [ha] at hactv
          exact absurd hactv hne
    next ha =>
      refine ⟨?_, ?_, ?_, ?_, ?_⟩
      · rw [storeGet_storeSet_ne _ _ (playlistsKey_ne_metaKey id).symm, hs1meta]
      · intro i hi
        rw [storeGet_storeSet_ne _ _ (playlistsKey_ne_chunkKey id i).symm,
          hs1chunk i hi]
      · unfold getPlaylistList
        rw [storeGet_storeSet_self]
        rw [List.filter_eq_nil_iff]
        intro q hq
        have := List.mem_filter.mp hq
        simp only [decide_not] at this
        simpa using this.2
      · intro habs
        rw [hactv] at habs
        exact absurd (Option.some.inj habs) ha
      · intro _
        unfold getActivePlaylistId
        rw [storeGet_storeSet_ne _ _ activeKey_ne_playlistsKey, hact1]
  next hactv =>
    refine ⟨?_, ?_, ?_, ?_, ?_⟩
    · rw [storeGet_storeSet_ne _ _ (playlistsKey_ne_metaKey id).symm, hs1meta]
    · intro i hi
      rw [storeGet_storeSet_ne _ _ (playlistsKey_ne_chunkKey id i).symm,
        hs1chunk i hi]
    · unfold getPlaylistList
      rw [storeGet_storeSet_self]
      rw [List.filter_eq_nil_iff]
      intro q hq
      have := List.mem_filter.mp hq
      simp only [decide_not] at this
      simpa using this.2
    · intro habs
      rw [hactv] at habs
      cases habs
    · intro _
      unfold getActivePlaylistId
      rw [storeGet_storeSet_ne _ _ activeKey_ne_playlistsKey, hact1]

/-- Witness for `C5_delete`: delete the only saved playlist. -/
theorem C5_delete_witness :
    storeGet
        (deletePlaylist noFailEnv
          (savePlaylist noFailEnv [] samplePlaylist PlaylistType.m3u none).1 "p1")
        (metaKey "p1") = none ∧
    (∀ i, i < (saveMeta samplePlaylist PlaylistType.m3u none).chunkCount →
      storeGet
        (deletePlaylist noFailEnv
          (savePlaylist noFailEnv [] samplePlaylist PlaylistType.m3u none).1 "p1")
        (chunkKey "p1" i) = none) ∧
    (getPlaylistList
        (deletePlaylist noFailEnv
          (savePlaylist noFailEnv [] samplePlaylist PlaylistType.m3u none).1 "p1")).filter
      (fun q => q.id = "p1") = [] ∧
    (getActivePlaylistId
        (savePlaylist noFailEnv [] samplePlaylist PlaylistType.m3u none).1 = some "p1" →
      getActivePlaylistId
          (deletePlaylist noFailEnv
            (savePlaylist noFailEnv [] samplePlaylist PlaylistType.m3u none).1 "p1")
        = (match (getPlaylistList
            (savePlaylist noFailEnv [] samplePlaylist PlaylistType.m3u none).1).filter
            (fun p => p.id ≠ "p1") with
           | p :: _ => some p.id
           | [] => none)) ∧
    (getActivePlaylistId
        (savePlaylist noFailEnv [] samplePlaylist PlaylistType.m3u none).1 ≠ some "p1" →
      getActivePlaylistId
          (deletePlaylist noFailEnv
            (savePlaylist noFailEnv [] samplePlaylist PlaylistType.m3u none).1 "p1")
        = getActivePlaylistId
            (savePlaylist noFailEnv [] samplePlaylist PlaylistType.m3u none).1) :=
  C5_delete noFailEnv
    (savePlaylist noFailEnv [] samplePlaylist PlaylistType.m3u none).1 "p1"
    (saveMeta samplePlaylist PlaylistType.m3u none) (by decide) rfl rfl

/-! ### Claim C7: single-attempt fetch with marker validation -/

/-- **C7**.  `fetchAndParseM3U` returns a parsed playlist iff the single HTTP
attempt yields a successful response containing `#EXTM3U` or `#EXTINF`;
otherwise it throws exactly the fetch-failure error whose message points at
blocking/authentication; and the result depends only on attempt 0 of the
fetch oracle (no internal retry). -/
theorem C7_fetch_contract (ids : Nat → String) (now : Nat)
    (oracle : Nat → FetchOutcome) (url : String) :
    ((∃ p, fetchAndParseM3U ids now oracle url = .ok p) ↔
      goodOutcome (oracle 0) = true) ∧
    (goodOutcome (oracle 0) = false →
      fetchAndParseM3U ids now oracle url = .error fetchErrorMessage) ∧
    (∀ oracle' : Nat → FetchOutcome, oracle' 0 = oracle 0 →
      fetchAndParseM3U ids now oracle' url = fetchAndParseM3U ids now oracle url) := by
  refine ⟨?_, ?_, ?_⟩
  · cases ho : oracle 0 with
    | netError =>
      simp [fetchAndParseM3U, fetchPlaylistContent, goodOutcome, ho]
    | response ok body =>
      by_cases hcond : (ok && (jsIncludes body "#EXTM3U" || jsIncludes body "#EXTINF")) = true
      · simp [fetchAndParseM3U, fetchPlaylistContent, goodOutcome, ho, hcond]
      · simp [fetchAndParseM3U, fetchPlaylistContent, goodOutcome, ho, hcond]
  · intro hbad
    cases ho : oracle 0 with
    | netError =>
      simp [fetchAndParseM3U, fetchPlaylistContent, ho]
    | response ok body =>
      rw [ho] at hbad
      have hbad' : (ok && (jsIncludes body "#EXTM3U" || jsIncludes body "#EXTINF"))
          = false := hbad
      simp [fetchAndParseM3U, fetchPlaylistContent, ho, hbad']
  · intro oracle' h0
    unfold fetchAndParseM3U
    rw [h0]

/-- Witness for `C7_fetch_contract` at concrete oracles. -/
theorem C7_fetch_contract_witness :
    (((∃ p, fetchAndParseM3U ids0 0 okOracle "http://h/a.m3u" = .ok p) ↔
        goodOutcome (okOracle 0) = true) ∧
      (goodOutcome (okOracle 0) = false →
        fetchAndParseM3U ids0 0 okOracle "http://h/a.m3u" = .error fetchErrorMessage) ∧
      (∀ oracle' : Nat → FetchOutcome, oracle' 0 = okOracle 0 →
        fetchAndParseM3U ids0 0 oracle' "http://h/a.m3u"
          = fetchAndParseM3U ids0 0 okOracle "http://h/a.m3u")) ∧
    goodOutcome (badOracle 0) = false ∧
    fetchAndParseM3U ids0 0 badOracle "http://h/a.m3u" = .error fetchErrorMessage :=
  ⟨C7_fetch_contract ids0 0 okOracle "http://h/a.m3u",
   by decide,
   (C7_fetch_contract ids0 0 badOracle "http://h/a.m3u").2.1 (by decide)⟩

/-! ### Claim C8: default playlist name derivation -/

/-- **C8** (code bug).  For the url `http://host/tv/channels.m3u8` the code
derives the default name `"channels8"`, not `"channels"`: the final path
segment is first stripped of `.m3u` — which removes the `.m3u` inside
`.m3u8`, leaving the stray `8` — and only then (vacuously) of `.m3u8`.  The
origin url is stamped as claimed. -/
theorem C8_name_derivation :
    deriveFileName "http://host/tv/channels.m3u8" = "channels8" ∧
    "channels8" ≠ "channels" ∧
    ∃ p, fetchAndParseM3U ids0 0 okOracle "http://host/tv/channels.m3u8" = .ok p ∧
      p.name = "channels8" ∧ p.url = some "http://host/tv/channels.m3u8" := by
  refine ⟨by decide, by decide, ⟨_, rfl, by decide, by decide⟩⟩

/-! ### Claim C9: emitted channels always carry a parsed non-empty name -/

theorem parseStep_preserves (ids : Nat → String) (lines : List (List Char))
    (st : ParseState) (il : Nat × List Char) (hline : il.2 ∈ lines)
    (hst : NamesOK lines st) : NamesOK lines (parseStep ids lines st il) := by
  unfold parseStep
  by_cases hext : startsWithL "#EXTINF:".data il.2 = true
  · simp only [hext, if_true]
    exact ⟨Or.inr ⟨il.2, hline, rfl⟩, hst.2⟩
  · simp only [hext, if_false, Bool.false_eq_true]
    by_cases hurl : (!il.2.isEmpty && !startsWithL "#".data il.2
        && nameTruthy st.current) = true
    · simp only [hurl, if_true]
      refine ⟨Or.inl rfl, ?_⟩
      intro c hc
      rcases List.mem_append.mp hc with hc | hc
      · exact hst.2 c hc
      · have hcc : c = _ := List.mem_singleton.mp hc
        subst hcc
        have hname : nameTruthy st.current = true := by
          have := hurl
          simp only [Bool.and_eq_true] at this
          exact this.2
        unfold nameTruthy at hname
        match hn : st.current.name with
        | none => rw [hn] at hname; cases hname
        | some s =>
          rw [hn] at hname
          have hs : s ≠ "" := by simpa using hname
          rcases hst.1 with hcur | ⟨l, hl, hcur⟩
          · rw [hcur] at hn
            cases hn
          · refine ⟨?_, l, hl, ?_⟩
            · show (if s = "" then "Unknown Channel" else s) ≠ ""
              simp [hs]
            · rw [← hcur, hn]
              show some s = some (if s = "" then "Unknown Channel" else s)
              simp [hs]
    · simp only [hurl, if_false, Bool.false_eq_true]
      exact hst

theorem foldl_parseStep_preserves (ids : Nat → String)
    (lines : List (List Char)) :
    ∀ (l : List (Nat × List Char)) (st : ParseState),
      (∀ x ∈ l, x.2 ∈ lines) → NamesOK lines st →
      NamesOK lines (l.foldl (parseStep ids lines) st) := by
  intro l
  induction l with
  | nil => intro st _ h; exact h
  | cons x xs ih =>
    intro st hmem hst
    exact ih _ (fun y hy => hmem y (List.mem_cons_of_mem _ hy))
      (parseStep_preserves ids lines st x (hmem x (List.mem_cons_self x xs)) hst)

/-- **C9** (amended).  Every channel emitted by `parseM3U` has a non-empty
name, and that name is exactly the (trimmed, non-empty) capture following the
*first* comma of some entry-info line of the input — so the "Unknown Channel"
fallback is never applied, and an entry-info line with no non-empty display
name after its first comma never produces a channel.  The original claim said
"last comma"; `/,(.+)$/` captures from the first comma
(see `C9_counterexample`). -/
theorem C9_names (ids : Nat → String) (now : Nat) (content : String)
    (playlistName : String) :
    ∀ c ∈ (parseM3U ids now content playlistName).channels,
      c.name ≠ "" ∧
      ∃ l ∈ m3uLines content, (parseExtInf l).name = some c.name := by
  intro c hc
  have h := foldl_parseStep_preserves ids (m3uLines content)
    (m3uLines content).enum {}
    (fun x hx => by
      have : x.2 ∈ (m3uLines content).enum.map Prod.snd := List.mem_map_of_mem _ hx
      rwa [List.enum_map_snd] at this)
    ⟨Or.inl rfl, by intro c hc; cases hc⟩
  exact h.2 c hc

/-- **C9 counterexample**: on `#EXTINF:-1,A,` followed by a URL line, the
text after the *last* comma is empty after trimming, so the claim as stated
predicts no channel; the code captures after the *first* comma and emits one
channel named `"A,"`. -/
theorem C9_counterexample :
    (parseM3U ids0 0 "#EXTINF:-1,A,\nhttp://u").channels.map Channel.name
      = ["A,"] ∧
    lastCommaName "#EXTINF:-1,A,".data = some "" := by
  constructor
  · decide
  · decide

/-- Witness for `C9_names` on the spec's own example input, instantiated at
the single emitted channel. -/
theorem C9_names_witness :
    ((parseM3U ids0 7 cnnContent "My Playlist").channels.headD dummyChannel).name
      ≠ "" ∧
    ∃ l ∈ m3uLines cnnContent,
      (parseExtInf l).name
        = some ((parseM3U ids0 7 cnnContent
            "My Playlist").channels.headD dummyChannel).name :=
  C9_names ids0 7 cnnContent "My Playlist" _ (by decide)

/-! ### Claim C4: the category list -/

theorem listCompareNat_eq_iff : ∀ x y : List Nat,
    listCompareNat x y = .eq ↔ x = y := by
  intro x
  induction x with
  | nil =>
    intro y
    cases y <;> simp [listCompareNat]
  | cons a as ih =>
    intro y
    cases y with
    | nil => simp [listCompareNat]
    | cons b bs =>
      simp only [listCompareNat]
      by_cases h1 : a < b
      · rw [if_pos h1]
        simp only [List.cons.injEq]
        constructor
        · intro h; cases h
        · rintro ⟨rfl, -⟩; omega
      · by_cases h2 : b < a
        · rw [if_neg h1, if_pos h2]
          simp only [List.cons.injEq]
          constructor
          · intro h; cases h
          · rintro ⟨rfl, -⟩; omega
        · rw [if_neg h1, if_neg h2]
          have hab : a = b := by omega
          subst hab
          simp [ih bs]

theorem listCompareNat_swap : ∀ x y : List Nat,
    listCompareNat y x = (listCompareNat x y).swap := by
  intro x
  induction x with
  | nil =>
    intro y
    cases y <;> simp [listCompareNat, Ordering.swap]
  | cons a as ih =>
    intro y
    cases y with
    | nil => simp [listCompareNat, Ordering.swap]
    | cons b bs =>
      simp only [listCompareNat]
      by_cases h1 : a < b
      · have hba : ¬b < a := by omega
        rw [if_neg hba, if_pos h1, if_pos h1]
        rfl
      · by_cases h2 : b < a
        · rw [if_pos h2, if_neg h1, if_pos h2]
          rfl
        · rw [if_neg h2, if_neg h1, if_neg h1, if_neg h2]
          exact ih bs

theorem listCompareNat_lt_trans : ∀ x y z : List Nat,
    listCompareNat x y = .lt → listCompareNat y z = .lt →
    listCompareNat x z = .lt := by
  intro x
  induction x with
  | nil =>
    intro y z h1 h2
    cases y with
    | nil => cases h1
    | cons b bs =>
      cases z with
      | nil => cases h2
      | cons c cs => rfl
  | cons a as ih =>
    intro y z h1 h2
    cases y with
    | nil => cases h1
    | cons b bs =>
      cases z with
      | nil => cases h2
      | cons c cs =>
        simp only [listCompareNat] at h1 h2 ⊢
        by_cases hab : a < b
        · by_cases hbc : b < c
          · rw [if_pos (by omega : a < c)]
          · rw [if_neg hbc] at h2
            by_cases hcb : c < b
            · rw [if_pos hcb] at h2; cases h2
            · have : b = c := by omega
              subst this
              rw [if_pos hab]
        · rw [if_neg hab] at h1
          by_cases hba : b < a
          · rw [if_pos hba] at h1; cases h1
          · have : a = b := by omega
            subst this
            by_cases hbc : a < c
            · rw [if_pos hbc]
            · rw [if_neg hbc] at h2 ⊢
              by_cases hcb : c < a
              · rw [if_pos hcb] at h2; cases h2
              · rw [if_neg hcb] at h2 ⊢
                rw [if_neg hab] at h1
                exact ih bs cs h1 h2

theorem localeCompare_total (a b : String) :
    localeCompare a b ≤ 0 ∨ localeCompare b a ≤ 0 := by
  unfold localeCompare
  rw [listCompareNat_swap (collPrimary a) (collPrimary b),
    listCompareNat_swap (collTertiary a) (collTertiary b)]
  cases listCompareNat (collPrimary a) (collPrimary b) with
  | lt => left; simp
  | gt => right; simp [Ordering.swap]
  | eq =>
    cases listCompareNat (collTertiary a) (collTertiary b) with
    | lt => left; simp [Ordering.swap]
    | gt => right; simp [Ordering.swap]
    | eq => left; simp [Ordering.swap]

theorem localeCompare_trans (a b c : String)
    (h1 : localeCompare a b ≤ 0) (h2 : localeCompare b c ≤ 0) :
    localeCompare a c ≤ 0 := by
  unfold localeCompare at h1 h2 ⊢
  cases hp1 : listCompareNat (collPrimary a) (collPrimary b) with
  | gt => rw [hp1] at h1; simp at h1
  | lt =>
    cases hp2 : listCompareNat (collPrimary b) (collPrimary c) with
    | gt => rw [hp2] at h2; simp at h2
    | lt =>
      rw [listCompareNat_lt_trans _ _ _ hp1 hp2]
      simp
    | eq =>
      have heq := (listCompareNat_eq_iff _ _).mp hp2
      rw [← heq, hp1]
      simp
  | eq =>
    have heq := (listCompareNat_eq_iff _ _).mp hp1
    rw [hp1] at h1
    cases hp2 : listCompareNat (collPrimary b) (collPrimary c) with
    | gt => rw [hp2] at h2; simp at h2
    | lt =>
      rw [heq, hp2]
      simp
    | eq =>
      rw [hp2] at h2
      rw [heq, hp2]
      cases ht1 : listCompareNat (collTertiary a) (collTertiary b) with
      | gt => rw [ht1] at h1; simp at h1
      | lt =>
        cases ht2 : listCompareNat (collTertiary b) (collTertiary c) with
        | gt => rw [ht2] at h2; simp at h2
        | lt =>
          rw [listCompareNat_lt_trans _ _ _ ht1 ht2]
          simp
        | eq =>
          have hteq := (listCompareNat_eq_iff _ _).mp ht2
          rw [← hteq, ht1]
          simp
      | eq =>
        have hteq := (listCompareNat_eq_iff _ _).mp ht1
        rw [hteq]
        exact h2

theorem catCmp_trans (a b c : String)
    (h1 : catCmp a b ≤ 0) (h2 : catCmp b c ≤ 0) : catCmp a c ≤ 0 := by
  unfold catCmp at h1 h2 ⊢
  by_cases ha : a = "Uncategorized"
  · rw [if_pos ha] at h1; omega
  · rw [if_neg ha] at h1 ⊢
    by_cases hc : c = "Uncategorized"
    · rw [if_pos hc]; omega
    · rw [if_neg hc]
      by_cases hb : b = "Uncategorized"
      · rw [if_pos hb] at h2; omega
      · rw [if_neg hb] at h1
        rw [if_neg hb] at h2
        rw [if_neg hc] at h2
        exact localeCompare_trans a b c h1 h2

theorem catCmp_total (a b : String) (hne : a ≠ b) :
    catCmp a b ≤ 0 ∨ catCmp b a ≤ 0 := by
  unfold catCmp
  by_cases ha : a = "Uncategorized"
  · right
    rw [if_neg (fun hb : b = "Uncategorized" => hne (by rw [ha, hb])), if_pos ha]
    omega
  · by_cases hb : b = "Uncategorized"
    · left
      rw [if_neg ha, if_pos hb]
      omega
    · rw [if_neg ha, if_neg hb, if_neg hb, if_neg ha]
      exact localeCompare_total a b

theorem insertCmp_perm (cmp : α → α → Int) (x : α) :
    ∀ l : List α, (insertCmp cmp x l).Perm (x :: l) := by
  intro l
  induction l with
  | nil => exact List.Perm.refl _
  | cons y ys ih =>
    unfold insertCmp
    by_cases h : cmp x y ≤ 0
    · rw [if_pos h]
    · rw [if_neg h]
      exact (ih.cons y).trans (List.Perm.swap x y ys)

theorem sortByCmp_perm (cmp : α → α → Int) :
    ∀ l : List α, (sortByCmp cmp l).Perm l := by
  intro l
  induction l with
  | nil => exact List.Perm.refl _
  | cons x xs ih =>
    exact (insertCmp_perm cmp x (sortByCmp cmp xs)).trans (ih.cons x)

theorem insertCmp_pairwise (cmp : α → α → Int)
    (htrans : ∀ a b c, cmp a b ≤ 0 → cmp b c ≤ 0 → cmp a c ≤ 0) (x : α) :
    ∀ l : List α,
      (∀ b ∈ l, x ≠ b → cmp x b ≤ 0 ∨ cmp b x ≤ 0) → x ∉ l →
      l.Pairwise (fun a b => cmp a b ≤ 0) →
      (insertCmp cmp x l).Pairwise (fun a b => cmp a b ≤ 0) := by
  intro l
  induction l with
  | nil => intro _ _ _; simp [insertCmp]
  | cons y ys ih =>
    intro htot hx hl
    unfold insertCmp
    rcases List.pairwise_cons.mp hl with ⟨hyall, hys⟩
    by_cases h : cmp x y ≤ 0
    · rw [if_pos h]
      refine List.pairwise_cons.mpr ⟨?_, hl⟩
      intro z hz
      rcases List.mem_cons.mp hz with hz | hz
      · rw [hz]; exact h
      · exact htrans x y z h (hyall z hz)
    · rw [if_neg h]
      refine List.pairwise_cons.mpr ⟨?_, ?_⟩
      · intro z hz
        have hz' := (insertCmp_perm cmp x ys).mem_iff.mp hz
        rcases List.mem_cons.mp hz' with hz' | hz'
        · rw [hz']
          have hxy : x ≠ y := fun hh => hx (by rw [hh]; exact List.mem_cons_self y ys)
          rcases htot y (List.mem_cons_self y ys) hxy with hcase | hcase
          · exact absurd hcase h
          · exact hcase
        · exact hyall z hz'
      · exact ih (fun b hb hneb => htot b (List.mem_cons_of_mem _ hb) hneb)
          (fun hmem => hx (List.mem_cons_of_mem _ hmem)) hys

theorem sortByCmp_pairwise (cmp : α → α → Int)
    (htrans : ∀ a b c, cmp a b ≤ 0 → cmp b c ≤ 0 → cmp a c ≤ 0) :
    ∀ l : List α,
      (∀ a ∈ l, ∀ b ∈ l, a ≠ b → cmp a b ≤ 0 ∨ cmp b a ≤ 0) → l.Nodup →
      (sortByCmp cmp l).Pairwise (fun a b => cmp a b ≤ 0) := by
  intro l
  induction l with
  | nil => intro _ _; simp [sortByCmp]
  | cons x xs ih =>
    intro htot hnd
    unfold sortByCmp
    have hxs : x ∉ xs := (List.nodup_cons.mp hnd).1
    apply insertCmp_pairwise cmp htrans x (sortByCmp cmp xs)
    · intro b hb hneb
      have hb' := (sortByCmp_perm cmp xs).mem_iff.mp hb
      exact htot x (List.mem_cons_self x xs) b (List.mem_cons_of_mem _ hb') hneb
    · intro hmem
      exact hxs ((sortByCmp_perm cmp xs).mem_iff.mp hmem)
    · exact ih (fun a ha b hb => htot a (List.mem_cons_of_mem _ ha) b
        (List.mem_cons_of_mem _ hb)) (List.nodup_cons.mp hnd).2

theorem addUnique_mem (cats : List String) (g x : String) :
    x ∈ addUnique cats g ↔ x ∈ cats ∨ x = g := by
  unfold addUnique
  by_cases h : cats.contains g = true
  · rw [if_pos h]
    have hg : g ∈ cats := List.elem_iff.mp h
    constructor
    · exact Or.inl
    · rintro (hx | rfl)
      · exact hx
      · exact hg
  · rw [if_neg h]
    simp

theorem addUnique_nodup (cats : List String) (g : String) (h : cats.Nodup) :
    (addUnique cats g).Nodup := by
  unfold addUnique
  by_cases hc : cats.contains g = true
  · rwa [if_pos hc]
  · rw [if_neg hc]
    have hg : g ∉ cats := fun hmem => hc (List.elem_iff.mpr hmem)
    simp [List.nodup_append, h, hg]

theorem parseStep_cats (ids : Nat → String) (lines : List (List Char))
    (st : ParseState) (il : Nat × List Char) (h : CatsOK st) :
    CatsOK (parseStep ids lines st il) := by
  unfold parseStep
  by_cases hext : startsWithL "#EXTINF:".data il.2 = true
  · simp only [hext, if_true]
    exact h
  · simp only [hext, if_false, Bool.false_eq_true]
    by_cases hurl : (!il.2.isEmpty && !startsWithL "#".data il.2
        && nameTruthy st.current) = true
    · simp only [hurl, if_true]
      constructor
      · exact addUnique_nodup _ _ h.1
      · intro g
        rw [addUnique_mem, List.map_append, List.mem_append, h.2 g]
        simp
    · simp only [hurl, if_false, Bool.false_eq_true]
      exact h

theorem foldl_parseStep_cats (ids : Nat → String) (lines : List (List Char)) :
    ∀ (l : List (Nat × List Char)) (st : ParseState), CatsOK st →
      CatsOK (l.foldl (parseStep ids lines) st) := by
  intro l
  induction l with
  | nil => intro st h; exact h
  | cons x xs ih =>
    intro st h
    exact ih _ (parseStep_cats ids lines st x h)

/-- **C4** (amended).  `parseM3U`'s category list is exactly the
duplicate-free set of `group` values of the emitted channels, ordered by the
source's comparator: "Uncategorized" strictly last, and all other names in
nondecreasing `localeCompare` order — the host locale's ICU collation, which
compares case-insensitively at its primary level, *not* the case-sensitive
code-point order the original claim states (see `C4_counterexample`). -/
theorem C4_categories (ids : Nat → String) (now : Nat) (content : String)
    (playlistName : String) :
    (parseM3U ids now content playlistName).categories.Nodup ∧
    (∀ g, g ∈ (parseM3U ids now content playlistName).categories ↔
      g ∈ (parseM3U ids now content playlistName).channels.map Channel.group) ∧
    (parseM3U ids now content playlistName).categories.Pairwise
      (fun a b => catCmp a b ≤ 0) := by
  have hst := foldl_parseStep_cats ids (m3uLines content)
    (m3uLines content).enum {} ⟨List.nodup_nil, by intro g; simp⟩
  have hperm := sortByCmp_perm catCmp
    ((m3uLines content).enum.foldl (parseStep ids (m3uLines content)) {}).cats
  refine ⟨hperm.nodup_iff.mpr hst.1, ?_, ?_⟩
  · intro g
    rw [show (parseM3U ids now content playlistName).categories
        = sortByCmp catCmp
          ((m3uLines content).enum.foldl (parseStep ids (m3uLines content)) {}).cats
      from rfl]
    rw [hperm.mem_iff]
    exact hst.2 g
  · exact sortByCmp_pairwise catCmp catCmp_trans _
      (fun a _ b _ hne => catCmp_total a b hne) hst.1

/-- **C4 counterexample**: groups `"B"` and `"a"`.  Case-sensitive
lexicographic (code-point) order puts `"B"` (0x42) before `"a"` (0x61), but
`localeCompare` in the default locale orders them primarily by case-folded
letter, so the code produces `["a", "B"]`, not `["B", "a"]`. -/
theorem C4_counterexample :
    (parseM3U ids0 0
      "#EXTINF:-1 group-title=\"B\",One\nhttp://u1\n#EXTINF:-1 group-title=\"a\",Two\nhttp://u2").categories
      = ["a", "B"] ∧
    ("B".data = ['B'] ∧ "a".data = ['a'] ∧ 'B' < 'a') ∧
    (["a", "B"] ≠ ["B", "a"]) := by
  refine ⟨by decide, by decide, by decide⟩

/-! ### Claim C6: quality variant deduplication -/

theorem dedupStep_nil (q : VideoQuality) : dedupStep [] q = [q] := rfl

theorem dedupStep_cons (x : VideoQuality) (xs : List VideoQuality)
    (q : VideoQuality) :
    dedupStep (x :: xs) q
      = if x.resolution = q.resolution then
          (if bitrateReplCond q x then q :: xs else x :: xs)
        else x :: dedupStep xs q := by
  unfold dedupStep
  rw [List.findIdx?_cons]
  by_cases h : x.resolution = q.resolution
  · simp [h, List.set]
  · simp only [h, decide_False, if_false, List.findIdx?_succ]
    cases hf : List.findIdx? (fun r => decide (r.resolution = q.resolution)) xs with
    | some j =>
      cases hg : xs[j]? with
      | some ex =>
        by_cases hc : bitrateReplCond q ex
        · simp [List.get?_cons_succ, hg, hc, List.set]
        · simp [List.get?_cons_succ, hg, hc]
      | none => simp [List.get?_cons_succ, hg]
    | none => simp

theorem dedupStep_new (q : VideoQuality) :
    ∀ acc : List VideoQuality,
      (∀ x ∈ acc, x.resolution ≠ q.resolution) →
      dedupStep acc q = acc ++ [q] := by
  intro acc
  induction acc with
  | nil => intro _; rfl
  | cons x xs ih =>
    intro h
    rw [dedupStep_cons,
      if_neg (h x (List.mem_cons_self x xs)),
      ih (fun y hy => h y (List.mem_cons_of_mem _ hy))]
    rfl

theorem dedupStep_collision (q : VideoQuality) :
    ∀ acc : List VideoQuality, ∀ x ∈ acc,
      x.resolution = q.resolution → bitrateReplCond q x = false →
      acc.Pairwise (fun a b => a.resolution ≠ b.resolution) →
      dedupStep acc q = acc := by
  intro acc
  induction acc with
  | nil => intro x hx; cases hx
  | cons y ys ih =>
    intro x hx hres hrepl hdist
    rw [dedupStep_cons]
    by_cases hy : y.resolution = q.resolution
    · rw [if_pos hy]
      have hxy : x = y := by
        rcases List.mem_cons.mp hx with h | h
        · exact h
        · exact absurd (hy.trans hres.symm) ((List.pairwise_cons.mp hdist).1 x h)
      rw [if_neg (by rw [← hxy]; simp [hrepl])]
    · rw [if_neg hy]
      have hx' : x ∈ ys := by
        rcases List.mem_cons.mp hx with h | h
        · exact absurd (h ▸ hres) hy
        · exact h
      rw [ih x hx' hres hrepl (List.pairwise_cons.mp hdist).2]

theorem bitGE_refl_of_numeric (q : VideoQuality) (h : numericBitrate q) :
    bitGE q q := by
  rcases h with ⟨n, hn⟩
  exact ⟨n, n, hn, hn, le_refl n⟩

theorem bitrateReplCond_false_of_bitGE (q x : VideoQuality) (h : bitGE x q) :
    bitrateReplCond q x = false := by
  rcases h with ⟨a, b, hx, hq, hle⟩
  unfold bitrateReplCond
  rw [hx, hq]
  have : JSNum.gt (JSNum.num b) (JSNum.num a) = false := by
    unfold JSNum.gt
    simp
    omega
  simp [this]

theorem dedup_foldl_inv :
    ∀ (qs processed acc : List VideoQuality),
      DedupInv processed acc →
      (∀ q ∈ qs, numericBitrate q) →
      (∀ q ∈ qs, ∀ p ∈ processed, bitGE p q) →
      qs.Pairwise bitGE →
      DedupInv (processed ++ qs) (qs.foldl dedupStep acc) := by
  intro qs
  induction qs with
  | nil =>
    intro processed acc hinv _ _ _
    simpa using hinv
  | cons q rest ih =>
    intro processed acc hinv hnum hcross hsorted
    obtain ⟨inv1, inv2, inv3, inv4, inv5⟩ := hinv
    have hqnum : numericBitrate q := hnum q (List.mem_cons_self q rest)
    have hstep : DedupInv (processed ++ [q]) (dedupStep acc q) := by
      by_cases hex : ∃ x ∈ acc, x.resolution = q.resolution
      · rcases hex with ⟨x, hxmem, hxres⟩
        have hxproc : x ∈ processed := inv1 x hxmem
        have hxge : bitGE x q := hcross q (List.mem_cons_self q rest) x hxproc
        rw [dedupStep_collision q acc x hxmem hxres
          (bitrateReplCond_false_of_bitGE q x hxge) inv3]
        refine ⟨?_, ?_, inv3, ?_, inv5⟩
        · intro a ha
          exact List.mem_append_left _ (inv1 a ha)
        · intro p hp
          rcases List.mem_append.mp hp with hp | hp
          · exact inv2 p hp
          · rw [List.mem_singleton.mp hp]
            exact ⟨x, hxmem, hxres⟩
        · intro a ha p hp hres
          rcases List.mem_append.mp hp with hp | hp
          · exact inv4 a ha p hp hres
          · rw [List.mem_singleton.mp hp] at hres ⊢
            -- p = q and q's key is represented by a; a dominates q
            exact hcross q (List.mem_cons_self q rest) a (inv1 a ha)
      · push_neg at hex
        rw [dedupStep_new q acc (fun x hx => hex x hx)]
        refine ⟨?_, ?_, ?_, ?_, ?_⟩
        · intro a ha
          rcases List.mem_append.mp ha with ha | ha
          · exact List.mem_append_left _ (inv1 a ha)
          · rw [List.mem_singleton.mp ha]
            exact List.mem_append_right _ (List.mem_singleton.mpr rfl)
        · intro p hp
          rcases List.mem_append.mp hp with hp | hp
          · rcases inv2 p hp with ⟨a, ha, hres⟩
            exact ⟨a, List.mem_append_left _ ha, hres⟩
          · rw [List.mem_singleton.mp hp]
            exact ⟨q, List.mem_append_right _ (List.mem_singleton.mpr rfl), rfl⟩
        · rw [List.pairwise_append]
          refine ⟨inv3, List.pairwise_singleton _ _, ?_⟩
          intro a ha b hb
          rw [List.mem_singleton.mp hb]
          exact hex a ha
        · intro a ha p hp hres
          rcases List.mem_append.mp ha with ha | ha
          · rcases List.mem_append.mp hp with hp | hp
            · exact inv4 a ha p hp hres
            · rw [List.mem_singleton.mp hp] at hres
              exact absurd hres.symm (hex a ha)
          · rw [List.mem_singleton.mp ha] at hres ⊢
            rcases List.mem_append.mp hp with hp | hp
            · rcases inv2 p hp with ⟨b, hb, hbres⟩
              exact absurd (hbres.trans hres) (hex b hb)
            · rw [List.mem_singleton.mp hp]
              exact bitGE_refl_of_numeric q hqnum
        · rw [List.pairwise_append]
          refine ⟨inv5, List.pairwise_singleton _ _, ?_⟩
          intro a ha b hb
          rw [List.mem_singleton.mp hb]
          exact hcross q (List.mem_cons_self q rest) a (inv1 a ha)
    have hrest := ih (processed ++ [q]) (dedupStep acc q) hstep
      (fun r hr => hnum r (List.mem_cons_of_mem _ hr))
      (fun r hr p hp => by
        rcases List.mem_append.mp hp with hp | hp
        · exact hcross r (List.mem_cons_of_mem _ hr) p hp
        · rw [List.mem_singleton.mp hp]
          exact (List.pairwise_cons.mp hsorted).1 r hr)
      (List.pairwise_cons.mp hsorted).2
    rw [List.append_assoc] at hrest
    exact hrest

set_option maxRecDepth 8000 in
/-- **C6**.  The quality resolver's deduplication: on a descending-bitrate
quality list, the result has pairwise-distinct resolution keys, every kept
entry is one of the inputs and dominates the bitrate of every input sharing
its key, and the descending order is preserved; and concretely, a manifest
with two 720p variants at 2,000,000 and 2,500,000 resolves to exactly one
"720p" entry with bitrate 2,500,000. -/
theorem C6_quality_dedup :
    (∀ qs : List VideoQuality,
      (∀ q ∈ qs, numericBitrate q) →
      qs.Pairwise bitGE →
      (uniqueQualities qs).Pairwise (fun a b => a.resolution ≠ b.resolution) ∧
      (∀ q ∈ uniqueQualities qs, q ∈ qs ∧
        ∀ q' ∈ qs, q'.resolution = q.resolution → bitGE q q') ∧
      (uniqueQualities qs).Pairwise bitGE) ∧
    parseHLSManifest demoManifest "http://e/master.m3u8"
      = [{ label := "720p", resolution := "720p",
           bitrate := some (.num 2500000), url := some "http://e/hi.m3u8" }] := by
  constructor
  · intro qs hnum hsorted
    have h := dedup_foldl_inv qs [] [] (by
      refine ⟨?_, ?_, ?_, ?_, ?_⟩ <;> simp) hnum (by simp) hsorted
    rw [List.nil_append] at h
    obtain ⟨inv1, _, inv3, inv4, inv5⟩ := h
    exact ⟨inv3, fun q hq => ⟨inv1 q hq, fun q' hq' hres => inv4 q hq q' hq' hres⟩,
      inv5⟩
  · decide

/-- Witness for `C6_quality_dedup` at a concrete two-element collision. -/
theorem C6_quality_dedup_witness :
    (uniqueQualities [qHi, qLo]).Pairwise
      (fun a b => a.resolution ≠ b.resolution) ∧
    (∀ q ∈ uniqueQualities [qHi, qLo], q ∈ [qHi, qLo] ∧
      ∀ q' ∈ [qHi, qLo], q'.resolution = q.resolution → bitGE q q') ∧
    (uniqueQualities [qHi, qLo]).Pairwise bitGE :=
  C6_quality_dedup.1 [qHi, qLo]
    (by
      intro q hq
      rcases List.mem_cons.mp hq with h | h
      · rw [h]
        exact ⟨2500000, rfl⟩
      · rw [List.mem_singleton.mp h]
        exact ⟨2000000, rfl⟩)
    (by
      refine List.Pairwise.cons ?_ (List.pairwise_singleton _ _)
      intro b hb
      rw [List.mem_singleton.mp hb]
      exact ⟨2500000, 2000000, rfl, rfl, by omega⟩)
